import Mathlib

/-!
Shallow embedding of the distance-vector simulator in src/vetor_distancia.c.

Modelling conventions:
* C machine integers that hold costs, destinations and next hops are
  modelled as Lean Int (the program performs no overflowing arithmetic on
  them in any behaviour considered here).
* C fixed-size arrays are modelled as Lists of the static length
  (6 routers, 6 routes per table, PKT_BUFFER packet slots).  A read out
  of range - undefined behaviour in C, and never performed on the indices
  the program actually uses - returns a designated junk element; a write
  out of range is a no-op.  All theorems below concern indices inside the
  static bounds.
* The per-router packet buffer (a stack: entrada plus the counter idx) is
  a 5-slot list plus idx : Nat; pushes are guarded exactly as in the
  source (drop when idx equals PKT_BUFFER), pops decrement idx.
* The uninitialised stack array roteador roteadores[N_ROTEADORES] of main
  is modelled by an arbitrary array of the static shape, built from
  unconstrained functions supplying the garbage contents.
* The pseudo-random reset of the send countdown,
  (int)(((float)random()/(float)RAND_MAX)*5), is modelled in exact
  rational arithmetic as floor (5*g / RAND_MAX) for a draw g of random();
  at the inputs used in the theorems below the floating-point computation
  of the source is exact, so the model agrees with the C code there.
-/

namespace VetorDistancia

/-- #define INFINITO 5 (vetor_distancia.c line 48). -/
def INFINITO : Int := 5

/-- #define DISTANCIA_AUTOMATICA 1 (line 53). -/
def DISTANCIA_AUTOMATICA : Int := 1

/-- #define ESTADO_ESTATICO 10 (line 58). -/
def ESTADO_ESTATICO : Nat := 10

/-- #define PKT_BUFFER 5 (line 63). -/
def PKT_BUFFER : Nat := 5

/-- N_ROTEADORES = 6 (enumeration, line 76). -/
def N_ROTEADORES : Nat := 6

/-- glibc RAND_MAX, the divisor in the countdown reset expression. -/
def RAND_MAX : Nat := 2147483647

/-- struct rota_t (lines 116-124): destination, next hop, cost. -/
structure rota_t where
  destino : Int
  caminho : Int
  custo : Int

/-- struct pacote_t (lines 128-136): sender plus a snapshot of its table. -/
structure pacote_t where
  remetente : Int
  rotas : List rota_t

/-- struct roteador (lines 140-160): countdown, routing table, mailbox
stack pointer and mailbox buffer.  The id field of the C struct is never
assigned nor read by the program and is omitted. -/
structure roteador where
  intervalo : Nat
  rotas : List rota_t
  idx : Nat
  entrada : List pacote_t

/-- Junk route returned by an out-of-range table read (undefined
behaviour in the source; never relied upon by any theorem). -/
def rota_lixo : rota_t := ⟨-1, -1, 0⟩

/-- Junk packet returned by an out-of-range mailbox read. -/
def pacote_lixo : pacote_t := ⟨-1, []⟩

/-- Junk router returned by an out-of-range array read. -/
def roteador_lixo : roteador := ⟨0, [], 0, []⟩

/-- Read r[i] of the router array. -/
def leR (r : List roteador) (i : Nat) : roteador := r.getD i roteador_lixo

/-- Write r[i] of the router array. -/
def escreveR (r : List roteador) (i : Nat) (v : roteador) : List roteador := r.set i v

/-- Read rotas[d] of a routing table, at a C int index. -/
def leRota (t : List rota_t) (d : Int) : rota_t :=
  if d < 0 then rota_lixo else t.getD d.toNat rota_lixo

/-- Write rotas[d] of a routing table, at a C int index. -/
def escreveRota (t : List rota_t) (d : Int) (v : rota_t) : List rota_t :=
  if d < 0 then t else t.set d.toNat v

/-- Read entrada[p] of a mailbox buffer. -/
def lePacote (e : List pacote_t) (p : Nat) : pacote_t := e.getD p pacote_lixo

/-- Write entrada[p] of a mailbox buffer. -/
def escrevePacote (e : List pacote_t) (p : Nat) (v : pacote_t) : List pacote_t :=
  e.set p v

/-- Rows of the adjacency matrix conexoes_enlaces (lines 92-113). -/
def linhas_enlaces : List (List Int) :=
  [[1, 2, -1, -1, -1, -1],
   [0, 2, 3, 4, -1, -1],
   [0, 1, 4, -1, -1, -1],
   [1, 4, 5, -1, -1, -1],
   [2, 1, 3, 5, -1, -1],
   [4, 3, -1, -1, -1, -1]]

/-- int conexoes_enlaces[N_ROTEADORES][N_ROTEADORES] (lines 92-113). -/
def conexoes_enlaces (i j : Nat) : Int :=
  (linhas_enlaces.getD i []).getD j (-1)

/-- void _preencher_enlaces(roteador*, int src, int dst, int custo)
(lines 506-519): writes the route entry of router src towards dst with
the given cost; the next hop is -1 when the cost is INFINITO and the
destination itself otherwise. -/
def _preencher_enlaces (r : List roteador) (src : Nat) (dst : Int) (custo : Int) :
    List roteador :=
  let rt := leR r src
  escreveR r src
    { rt with
      rotas := escreveRota rt.rotas dst
        { destino := dst
          caminho := if custo = INFINITO then -1 else dst
          custo := custo } }

/-- First half of preencher_enlaces (lines 472-479), inner j loop of one
row: every entry of row src is set to cost INFINITO. -/
def preenche_linha (src : Nat) : List Nat → List roteador → List roteador
  | [], r => r
  | j :: js, r => preenche_linha src js (_preencher_enlaces r src (j : Int) INFINITO)

/-- First half of preencher_enlaces (lines 472-479), outer i loop: zero
the mailbox pointer of every router and set every route to INFINITO. -/
def preenche_infinito : List Nat → List roteador → List roteador
  | [], r => r
  | i :: il, r =>
      preenche_infinito il
        (preenche_linha i (List.range N_ROTEADORES) (escreveR r i { leR r i with idx := 0 }))

/-- Iteration order of the cost-requesting double loop of
preencher_enlaces (lines 481-502): (0,0), (0,1), ..., (5,5). -/
def pares : List (Nat × Nat) :=
  (List.range (N_ROTEADORES * N_ROTEADORES)).map fun n => (n / N_ROTEADORES, n % N_ROTEADORES)

/-- Second half of preencher_enlaces (lines 481-502): for every matrix
entry that names a link, obtain a cost.  ins is the stream of values read
by scanf, pos the number of values consumed so far, auto the
autopreencher flag: a cost of 0 switches to auto mode, and from then on
(including that link) DISTANCIA_AUTOMATICA is used instead of reading. -/
def preenche_custos (ins : Nat → Int) :
    List (Nat × Nat) → List roteador → Nat → Bool → List roteador
  | [], r, _, _ => r
  | (i, j) :: rest, r, pos, auto =>
      if conexoes_enlaces i j ≠ -1 then
        if auto then
          preenche_custos ins rest
            (_preencher_enlaces r i (conexoes_enlaces i j) DISTANCIA_AUTOMATICA) pos true
        else
          let custo := ins pos
          if custo = 0 then
            preenche_custos ins rest
              (_preencher_enlaces r i (conexoes_enlaces i j) DISTANCIA_AUTOMATICA)
              (pos + 1) true
          else
            preenche_custos ins rest
              (_preencher_enlaces r i (conexoes_enlaces i j) custo) (pos + 1) false
      else
        preenche_custos ins rest r pos auto

/-- void preencher_enlaces(roteador*) (lines 457-504): the infinity pass
followed by the interactive cost pass.  The function has no failure
path: it validates nothing about the entered costs. -/
def preencher_enlaces (r : List roteador) (ins : Nat → Int) : List roteador :=
  preenche_custos ins pares (preenche_infinito (List.range N_ROTEADORES) r) 0 false

/-- The existe check of envia_pacotes (lines 393-396): dst occurs in the
adjacency row of src. -/
def existe_enlace (src dst : Nat) : Bool :=
  (List.range N_ROTEADORES).any fun k => conexoes_enlaces src k == (dst : Int)

/-- Delivery loop of envia_pacotes (lines 389-429): for each dst in the
list, if dst is adjacent to src, push the packet onto dst's mailbox
unless it already holds PKT_BUFFER packets, in which case count a drop.
The accumulator carries the router array and the drop count. -/
def envia_laco (pkt : pacote_t) (src : Nat) :
    List Nat → List roteador × Nat → List roteador × Nat
  | [], a => a
  | dst :: rest, a =>
      let r := a.1
      if existe_enlace src dst then
        if (leR r dst).idx = PKT_BUFFER then
          envia_laco pkt src rest (r, a.2 + 1)
        else
          let rd := leR r dst
          envia_laco pkt src rest
            (escreveR r dst
              { rd with
                entrada := escrevePacote rd.entrada rd.idx pkt
                idx := rd.idx + 1 }, a.2)
      else
        envia_laco pkt src rest a

/-- int envia_pacotes(roteador*, int src) (lines 332-433): build the
advertisement (a value snapshot of the sender's table, lines 352-363)
and attempt delivery to every adjacent router; returns the new router
array and the number of packets dropped by this call. -/
def envia_pacotes (r : List roteador) (src : Nat) : List roteador × Nat :=
  let pkt : pacote_t := { remetente := (src : Int), rotas := (leR r src).rotas }
  envia_laco pkt src (List.range N_ROTEADORES) (r, 0)

/-- One relaxation (lines 294-320): for route rota_idx of packet pk,
compare the current cost to the advertised destination with the
advertised cost plus the cost to the sender; on strict improvement copy
the sender as next hop and store the candidate cost, signalling one
table change. -/
def relaxa (rt : roteador) (pk : pacote_t) (rota_idx : Nat) : roteador × Nat :=
  let destino_rota_pacote := (leRota pk.rotas (rota_idx : Int)).destino
  let custo_atual := (leRota rt.rotas destino_rota_pacote).custo
  let remetente := pk.remetente
  let custo_remetente := (leRota rt.rotas remetente).custo
  let custo_rota_pacote := (leRota pk.rotas (rota_idx : Int)).custo
  if custo_atual > custo_rota_pacote + custo_remetente then
    ({ rt with
        rotas := escreveRota rt.rotas destino_rota_pacote
          { destino := (leRota rt.rotas destino_rota_pacote).destino
            caminho := remetente
            custo := custo_rota_pacote + custo_remetente } }, 1)
  else (rt, 0)

/-- The for loop over rota_idx (lines 287-321) applied to one packet,
threading the router and the accumulated change count. -/
def processa_laco (pk : pacote_t) : List Nat → roteador × Nat → roteador × Nat
  | [], a => a
  | k :: ks, a =>
      let r2 := relaxa a.1 pk k
      processa_laco pk ks (r2.1, a.2 + r2.2)

/-- Process one packet: relax all N_ROTEADORES routes it advertises. -/
def processa_pacote (rt : roteador) (pk : pacote_t) : roteador × Nat :=
  processa_laco pk (List.range N_ROTEADORES) (rt, 0)

/-- The while loop of recebe_pacote (lines 282-322): as long as the
mailbox holds packets, decrement idx and process the packet at the new
idx.  fuel bounds the number of iterations; recebe_pacote passes the
current idx, which is exact because processing a packet never changes
idx. -/
def recebe_laco : Nat → roteador → Nat → roteador × Nat
  | 0, rt, delta => (rt, delta)
  | fuel + 1, rt, delta =>
      if rt.idx = 0 then (rt, delta)
      else
        let rt1 : roteador := { rt with idx := rt.idx - 1 }
        let pr := processa_pacote rt1 (lePacote rt1.entrada rt1.idx)
        recebe_laco fuel pr.1 (delta + pr.2)

/-- int recebe_pacote(roteador*, int dst) (lines 267-325): drain the
mailbox of router dst, relaxing its table, and return the updated router
array together with the number of table changes. -/
def recebe_pacote (r : List roteador) (dst : Nat) : List roteador × Nat :=
  let res := recebe_laco (leR r dst).idx (leR r dst) 0
  (escreveR r dst res.1, res.2)

/-- Exact-arithmetic model of
(int)(((float)random()/(float)RAND_MAX)*5) (lines 221 and 239): the
countdown reset computed from a draw g of random(). -/
def intervaloReset (g : Nat) : Nat := 5 * g / RAND_MAX

/-- Send phase of one step of the main loop (lines 232-242): a router
with a positive countdown decrements it; a router with countdown 0
calls envia_pacotes and then resets its countdown to iv applied to its
index (the model of this step's random() draws).  The accumulator
carries the router array and the packet drops of this phase. -/
def laco_envio (iv : Nat → Nat) :
    List Nat → List roteador × Nat → List roteador × Nat
  | [], a => a
  | i :: rest, a =>
      let r := a.1
      if (leR r i).intervalo ≠ 0 then
        laco_envio iv rest
          (escreveR r i { leR r i with intervalo := (leR r i).intervalo - 1 }, a.2)
      else
        let er := envia_pacotes r i
        laco_envio iv rest
          (escreveR er.1 i { leR er.1 i with intervalo := iv i }, a.2 + er.2)

/-- Receive phase of one step of the main loop (lines 246-248): every
router drains its mailbox; the accumulator carries the router array and
the summed delta. -/
def laco_recebimento : List Nat → List roteador × Nat → List roteador × Nat
  | [], a => a
  | i :: rest, a =>
      let rr := recebe_pacote a.1 i
      laco_recebimento rest (rr.1, a.2 + rr.2)

/-- Driver state: the router array and the cumulative drop counter
pkt_drop of main. -/
structure SimState where
  roteadores : List roteador
  pkt_drop : Nat

/-- One iteration of the while loop of main (lines 223-259), reduced to
its state effect: the send phase over all routers, then the receive
phase, accumulating drops; returns the new state and this step's
delta. -/
def passo_de_simulacao (s : SimState) (iv : Nat → Nat) : SimState × Nat :=
  let sp := laco_envio iv (List.range N_ROTEADORES) (s.roteadores, 0)
  let rp := laco_recebimento (List.range N_ROTEADORES) (sp.1, 0)
  (⟨rp.1, s.pkt_drop + sp.2⟩, rp.2)

/-- The initial countdown assignment of main (lines 220-221). -/
def atribui_intervalos (iv : Nat → Nat) : List Nat → List roteador → List roteador
  | [], r => r
  | i :: rest, r => atribui_intervalos iv rest (escreveR r i { leR r i with intervalo := iv i })

/-- The uninitialised array roteador roteadores[N_ROTEADORES] of main
(line 190): arbitrary contents of the static shape (6 routers, each
with a 6-entry table and a PKT_BUFFER-slot mailbox), supplied by
unconstrained functions. -/
def matriz_de_lixo (a : Nat → Nat) (f : Nat → Nat → rota_t) (b : Nat → Nat)
    (e : Nat → Nat → pacote_t) : List roteador :=
  (List.range N_ROTEADORES).map fun i =>
    ⟨a i, (List.range N_ROTEADORES).map (f i), b i, (List.range PKT_BUFFER).map (e i)⟩

/-- Router array at the start of the main loop: the uninitialised stack
array, filled by preencher_enlaces from the entered costs ins, then
given initial countdowns iv. -/
def initRouters (g : List roteador) (ins : Nat → Int) (iv : Nat → Nat) :
    List roteador :=
  atribui_intervalos iv (List.range N_ROTEADORES) (preencher_enlaces g ins)

/-- Driver state at the start of the main loop (pkt_drop = 0, line 215). -/
def initSim (g : List roteador) (ins : Nat → Int) (iv : Nat → Nat) : SimState :=
  ⟨initRouters g ins iv, 0⟩

/-- Admissible per-step randomness: every countdown value the reset
expression can produce is at most 5. -/
def okiv (iv : Nat → Nat) : Prop := ∀ i, iv i ≤ 5

/-- Runs of the simulation: states of the main loop reachable from a
given state by whole steps with admissible randomness. -/
inductive Reaches : SimState → SimState → Prop where
  | refl (s : SimState) : Reaches s s
  | next (s t : SimState) (iv : Nat → Nat) :
      Reaches s t → okiv iv → Reaches s (passo_de_simulacao t iv).1

/-- A state of the main loop of some run of the program. -/
def Reachable (t : SimState) : Prop :=
  ∃ a f b e ins iv, okiv iv ∧ Reaches (initSim (matriz_de_lixo a f b e) ins iv) t

/-- ultimo_passo_com_variacao as a function of the per-step delta stream
(lines 213 and 251): the last step up to t at which delta was nonzero,
0 if none. -/
def ultimo_passo_com_variacao (delta : Nat → Nat) : Nat → Nat
  | 0 => 0
  | t + 1 =>
      if delta (t + 1) ≠ 0 then t + 1 else ultimo_passo_com_variacao delta t

/-- The break condition of the main loop at step t (line 253). -/
def sai_do_laco (delta : Nat → Nat) (t : Nat) : Bool :=
  ESTADO_ESTATICO ≤ t - ultimo_passo_com_variacao delta t

/-- t is the step at which the main loop actually exits: the break
condition holds at t and at no earlier step. -/
def primeiro_passo_de_parada (delta : Nat → Nat) (t : Nat) : Prop :=
  sai_do_laco delta t = true ∧ ∀ s < t, sai_do_laco delta s = false

/-- The step count printed by the termination report (line 261):
passo - ESTADO_ESTATICO. -/
def passo_reportado (t : Nat) : Nat := t - ESTADO_ESTATICO

/-- Number of neighbours of src whose mailbox is full, i.e. the drops a
call of envia_pacotes on r causes. -/
def quedas_de_envio (r : List roteador) (src : Nat) : Nat :=
  ((List.range N_ROTEADORES).filter fun d =>
    existe_enlace src d && ((leR r d).idx == PKT_BUFFER)).length

/-! Specification-side receive (spec section 4.3), written in the
vocabulary of the spec for the refinement claim: candidateCost is the
advertised cost plus the receiver's own current cost to the sender; on
a strict improvement the entry's cost becomes candidateCost and its
next hop the sender, counting one delta.  Advertisements are removed
one at a time until the mailbox is empty; the removal order is the one
the code uses (a stack, most recently delivered first), which the spec
leaves open. -/

/-- Spec relaxation rule for one advertised route r from sender s. -/
def specRelaxa (table : List rota_t) (s : Int) (r : rota_t) : List rota_t × Nat :=
  let candidateCost := r.custo + (leRota table s).custo
  if candidateCost < (leRota table r.destino).custo then
    (escreveRota table r.destino
      { destino := (leRota table r.destino).destino
        caminho := s
        custo := candidateCost }, 1)
  else (table, 0)

/-- Spec relaxation of every route of one advertisement, in order. -/
def specRelaxaLista (s : Int) : List rota_t → List rota_t × Nat → List rota_t × Nat
  | [], a => a
  | rr :: rs, a =>
      let one := specRelaxa a.1 s rr
      specRelaxaLista s rs (one.1, a.2 + one.2)

/-- The ordered route entries an advertisement carries. -/
def specRotasDe (pk : pacote_t) : List rota_t :=
  (List.range N_ROTEADORES).map fun k => leRota pk.rotas (k : Int)

/-- The mailbox contents of a router in removal order (top of the stack
first). -/
def specCaixaDeEntrada (rt : roteador) : List pacote_t :=
  ((List.range rt.idx).reverse).map (lePacote rt.entrada)

/-- Spec receive: process each advertisement in removal order,
accumulating the delta. -/
def specRecebe : List pacote_t → List rota_t × Nat → List rota_t × Nat
  | [], a => a
  | pk :: pks, a =>
      let one := specRelaxaLista pk.remetente (specRotasDe pk) (a.1, 0)
      specRecebe pks (one.1, a.2 + one.2)

/-! Invariants of router states used by the theorems. -/

/-- Every in-range table entry's cost is at most INFINITO. -/
def TetoOk (rt : roteador) : Prop :=
  ∀ d : Int, 0 ≤ d → d < (N_ROTEADORES : Int) → (leRota rt.rotas d).custo ≤ INFINITO

/-- Every in-range table entry records its own index as destination, has
cost at most INFINITO, and has cost INFINITO exactly when its next hop
is -1. -/
def TabelaOk (rt : roteador) : Prop :=
  ∀ d : Int, 0 ≤ d → d < (N_ROTEADORES : Int) →
    (leRota rt.rotas d).destino = d ∧
    (leRota rt.rotas d).custo ≤ INFINITO ∧
    ((leRota rt.rotas d).custo = INFINITO ↔ (leRota rt.rotas d).caminho = -1)

/-- Every packet below the stack pointer has a non-negative sender. -/
def CaixaOk (rt : roteador) : Prop :=
  ∀ p < rt.idx, 0 ≤ (lePacote rt.entrada p).remetente

/-- TetoOk for every router of the array. -/
def EstadoTetoOk (r : List roteador) : Prop :=
  ∀ i < N_ROTEADORES, TetoOk (leR r i)

/-- TabelaOk and CaixaOk for every router of the array. -/
def EstadoTabelaOk (r : List roteador) : Prop :=
  ∀ i < N_ROTEADORES, TabelaOk (leR r i) ∧ CaixaOk (leR r i)

/-- Every router's mailbox pointer is within the buffer capacity. -/
def EstadoIdxOk (r : List roteador) : Prop :=
  ∀ i < N_ROTEADORES, (leR r i).idx ≤ PKT_BUFFER

/-- The static shape of the router array: 6 routers, 6-entry tables,
PKT_BUFFER-slot mailboxes. -/
def BoaForma (r : List roteador) : Prop :=
  r.length = N_ROTEADORES ∧
  ∀ i < N_ROTEADORES,
    (leR r i).rotas.length = N_ROTEADORES ∧ (leR r i).entrada.length = PKT_BUFFER

/-! Concrete inputs used by the closed witnesses and counterexamples. -/

/-- A concrete garbage array (all-zero contents). -/
def g0 : List roteador :=
  matriz_de_lixo (fun _ => 0) (fun _ _ => ⟨0, 0, 0⟩) (fun _ => 0) (fun _ _ => ⟨0, []⟩)

/-- All random draws give countdown 0. -/
def z0 : Nat → Nat := fun _ => 0

/-- Cost input stream: the first scanf reads 0, so the whole table is
auto-filled with cost 1. -/
def insAuto : Nat → Int := fun _ => 0

/-- Cost input stream: every link cost is entered as 1. -/
def insUns : Nat → Int := fun _ => 1

/-- Cost input stream: every link cost is entered as -3. -/
def insNeg : Nat → Int := fun _ => -3

/-- Cost input stream: every link cost is entered as 7. -/
def insSete : Nat → Int := fun _ => 7

/-- Cost input stream: cost 4 for A-B and B-A, 7 for A-C, 1 elsewhere
(prompt order: (A,B), (A,C), (B,A), (B,C), ...). -/
def insC8 : Nat → Int := fun p =>
  if p = 0 then 4 else if p = 1 then 7 else if p = 2 then 4 else 1

/-- Initial countdowns: only router A (id 0) sends in the first step. -/
def ivA : Nat → Nat := fun i => if i = 0 then 0 else 1

/-- Initial countdowns: only router B (id 1) sends in the first step. -/
def ivB : Nat → Nat := fun i => if i = 1 then 0 else 1

/-- One step of the all-costs-1 run in which only A sends: B receives
A's advertisement and relaxes, among others, its own self entry. -/
def cx1 : SimState := (passo_de_simulacao (initSim g0 insAuto ivA) z0).1

/-- One step of the insC8 run in which only B sends: A relaxes its route
to C down to exactly INFINITO with next hop B. -/
def cx8 : SimState := (passo_de_simulacao (initSim g0 insC8 ivB) z0).1

/-- A router array whose router 1 has a full mailbox. -/
def cheio : List roteador :=
  matriz_de_lixo (fun _ => 0) (fun _ _ => ⟨0, 0, 0⟩) (fun i => if i = 1 then 5 else 0)
    (fun _ _ => ⟨0, []⟩)

/-- The all-zero delta stream. -/
def d0 : Nat → Nat := fun _ => 0

/-- A delta stream with a single change at step 0. -/
def d1 : Nat → Nat := fun t => if t = 0 then 1 else 0

end VetorDistancia

namespace VetorDistancia

/-! Basic lemmas about the array reads and writes. -/

theorem getD_set_ne {α : Type} (l : List α) (i j : Nat) (v w : α) (h : j ≠ i) :
    (l.set i v).getD j w = l.getD j w := by
  rw [List.getD_eq_getElem?_getD, List.getD_eq_getElem?_getD,
    List.getElem?_set_ne (Ne.symm h)]

theorem getD_set_self {α : Type} (l : List α) (i : Nat) (v w : α) (h : i < l.length) :
    (l.set i v).getD i w = v := by
  rw [List.getD_eq_getElem?_getD, List.getElem?_set_self h, Option.getD_some]

theorem getD_set_cases {α : Type} (l : List α) (i j : Nat) (v w : α) :
    (l.set i v).getD j w = l.getD j w ∨ (l.set i v).getD j w = v := by
  by_cases h : j = i
  · subst h
    by_cases hl : j < l.length
    · exact Or.inr (getD_set_self l j v w hl)
    · left
      rw [List.getD_eq_getElem?_getD, List.getD_eq_getElem?_getD, List.getElem?_set]
      rw [List.getElem?_eq_none (by omega)]
      simp [hl]
  · exact Or.inl (getD_set_ne l i j v w h)

theorem length_escreveR (r : List roteador) (i : Nat) (v : roteador) :
    (escreveR r i v).length = r.length := List.length_set r i v

theorem leR_escreveR_ne (r : List roteador) (i j : Nat) (v : roteador) (h : j ≠ i) :
    leR (escreveR r i v) j = leR r j := getD_set_ne r i j v roteador_lixo h

theorem leR_escreveR_self (r : List roteador) (i : Nat) (v : roteador) (h : i < r.length) :
    leR (escreveR r i v) i = v := getD_set_self r i v roteador_lixo h

theorem leR_escreveR_cases (r : List roteador) (i j : Nat) (v : roteador) :
    leR (escreveR r i v) j = leR r j ∨ leR (escreveR r i v) j = v :=
  getD_set_cases r i j v roteador_lixo

theorem lePacote_escrevePacote_ne (e : List pacote_t) (i j : Nat) (v : pacote_t)
    (h : j ≠ i) : lePacote (escrevePacote e i v) j = lePacote e j :=
  getD_set_ne e i j v pacote_lixo h

theorem lePacote_escrevePacote_self (e : List pacote_t) (i : Nat) (v : pacote_t)
    (h : i < e.length) : lePacote (escrevePacote e i v) i = v :=
  getD_set_self e i v pacote_lixo h

theorem length_escrevePacote (e : List pacote_t) (i : Nat) (v : pacote_t) :
    (escrevePacote e i v).length = e.length := List.length_set e i v

theorem length_escreveRota (t : List rota_t) (i : Int) (v : rota_t) :
    (escreveRota t i v).length = t.length := by
  unfold escreveRota
  by_cases h : i < 0 <;> simp [h]

theorem leRota_escreveRota_ne (t : List rota_t) (i d : Int) (v : rota_t) (h : d ≠ i) :
    leRota (escreveRota t i v) d = leRota t d := by
  unfold leRota escreveRota
  by_cases hi : i < 0
  · simp [hi]
  · by_cases hd : d < 0
    · simp [hi, hd]
    · simp only [hi, hd, if_false]
      exact getD_set_ne t i.toNat d.toNat v rota_lixo (by omega)

theorem leRota_escreveRota_self (t : List rota_t) (i : Int) (v : rota_t)
    (h0 : 0 ≤ i) (hl : i.toNat < t.length) :
    leRota (escreveRota t i v) i = v := by
  unfold leRota escreveRota
  simp only [show ¬ i < 0 by omega, if_false]
  exact getD_set_self t i.toNat v rota_lixo hl

theorem leRota_escreveRota_cases (t : List rota_t) (i d : Int) (v : rota_t) :
    leRota (escreveRota t i v) d = leRota t d ∨
      (d = i ∧ leRota (escreveRota t i v) d = v) := by
  by_cases h : d = i
  · subst h
    unfold leRota escreveRota
    by_cases hd : d < 0
    · simp [hd]
    · simp only [hd, if_false]
      rcases getD_set_cases t d.toNat d.toNat v rota_lixo with hc | hc
      · exact Or.inl hc
      · exact Or.inr ⟨by simp, hc⟩
  · exact Or.inl (leRota_escreveRota_ne t i d v h)

end VetorDistancia

namespace VetorDistancia

/-! Lemmas about a single relaxation step. -/

theorem getD_set_cases2 {α : Type} (l : List α) (i j : Nat) (v w : α) :
    (l.set i v).getD j w = l.getD j w ∨ (j = i ∧ (l.set i v).getD j w = v) := by
  by_cases h : j = i
  · subst h
    by_cases hl : j < l.length
    · exact Or.inr ⟨rfl, getD_set_self l j v w hl⟩
    · left
      rw [List.getD_eq_getElem?_getD, List.getD_eq_getElem?_getD, List.getElem?_set]
      rw [List.getElem?_eq_none (by omega)]
      simp [hl]
  · exact Or.inl (getD_set_ne l i j v w h)

theorem leR_escreveR_cases2 (r : List roteador) (i j : Nat) (v : roteador) :
    leR (escreveR r i v) j = leR r j ∨ (j = i ∧ leR (escreveR r i v) j = v) :=
  getD_set_cases2 r i j v roteador_lixo

/-- Evaluation of relaxa: either the candidate is no improvement and
nothing happens, or it strictly improves and the entry at the advertised
destination is overwritten. -/
theorem relaxa_caracteriza (rt : roteador) (pk : pacote_t) (k : Nat) :
    (¬ (leRota pk.rotas (k : Int)).custo + (leRota rt.rotas pk.remetente).custo <
        (leRota rt.rotas (leRota pk.rotas (k : Int)).destino).custo ∧
      relaxa rt pk k = (rt, 0)) ∨
    ((leRota pk.rotas (k : Int)).custo + (leRota rt.rotas pk.remetente).custo <
        (leRota rt.rotas (leRota pk.rotas (k : Int)).destino).custo ∧
      relaxa rt pk k =
        ({ rt with
            rotas := escreveRota rt.rotas (leRota pk.rotas (k : Int)).destino
              { destino := (leRota rt.rotas (leRota pk.rotas (k : Int)).destino).destino
                caminho := pk.remetente
                custo := (leRota pk.rotas (k : Int)).custo +
                  (leRota rt.rotas pk.remetente).custo } },
          1)) := by
  by_cases h : (leRota pk.rotas (k : Int)).custo + (leRota rt.rotas pk.remetente).custo <
      (leRota rt.rotas (leRota pk.rotas (k : Int)).destino).custo
  · right
    refine ⟨h, ?_⟩
    simp only [relaxa, gt_iff_lt, h, if_true]
  · left
    refine ⟨h, ?_⟩
    simp only [relaxa, gt_iff_lt]
    rw [if_neg h]

theorem relaxa_intervalo (rt : roteador) (pk : pacote_t) (k : Nat) :
    ((relaxa rt pk k).1).intervalo = rt.intervalo := by
  rcases relaxa_caracteriza rt pk k with ⟨_, heq⟩ | ⟨_, heq⟩ <;> rw [heq]

theorem relaxa_idx (rt : roteador) (pk : pacote_t) (k : Nat) :
    ((relaxa rt pk k).1).idx = rt.idx := by
  rcases relaxa_caracteriza rt pk k with ⟨_, heq⟩ | ⟨_, heq⟩ <;> rw [heq]

theorem relaxa_entrada (rt : roteador) (pk : pacote_t) (k : Nat) :
    ((relaxa rt pk k).1).entrada = rt.entrada := by
  rcases relaxa_caracteriza rt pk k with ⟨_, heq⟩ | ⟨_, heq⟩ <;> rw [heq]

theorem relaxa_rotas_length (rt : roteador) (pk : pacote_t) (k : Nat) :
    ((relaxa rt pk k).1).rotas.length = rt.rotas.length := by
  rcases relaxa_caracteriza rt pk k with ⟨_, heq⟩ | ⟨_, heq⟩ <;> rw [heq]
  exact length_escreveRota _ _ _

theorem relaxa_custo_le (rt : roteador) (pk : pacote_t) (k : Nat) (d : Int) :
    (leRota ((relaxa rt pk k).1).rotas d).custo ≤ (leRota rt.rotas d).custo := by
  rcases relaxa_caracteriza rt pk k with ⟨_, heq⟩ | ⟨h, heq⟩ <;> rw [heq]
  rcases leRota_escreveRota_cases rt.rotas (leRota pk.rotas (k : Int)).destino d
      { destino := (leRota rt.rotas (leRota pk.rotas (k : Int)).destino).destino
        caminho := pk.remetente
        custo := (leRota pk.rotas (k : Int)).custo +
          (leRota rt.rotas pk.remetente).custo } with hc | ⟨hd, hc⟩
  · rw [hc]
  · rw [hc, hd]
    exact le_of_lt h

theorem relaxa_igual_ou_menor (rt : roteador) (pk : pacote_t) (k : Nat) (d : Int) :
    leRota ((relaxa rt pk k).1).rotas d = leRota rt.rotas d ∨
      (leRota ((relaxa rt pk k).1).rotas d).custo < (leRota rt.rotas d).custo := by
  rcases relaxa_caracteriza rt pk k with ⟨_, heq⟩ | ⟨h, heq⟩ <;> rw [heq]
  · exact Or.inl rfl
  rcases leRota_escreveRota_cases rt.rotas (leRota pk.rotas (k : Int)).destino d
      { destino := (leRota rt.rotas (leRota pk.rotas (k : Int)).destino).destino
        caminho := pk.remetente
        custo := (leRota pk.rotas (k : Int)).custo +
          (leRota rt.rotas pk.remetente).custo } with hc | ⟨hd, hc⟩
  · exact Or.inl hc
  · right
    rw [hc, hd]
    exact h

theorem relaxa_destino (rt : roteador) (pk : pacote_t) (k : Nat) (d : Int) :
    (leRota ((relaxa rt pk k).1).rotas d).destino = (leRota rt.rotas d).destino := by
  rcases relaxa_caracteriza rt pk k with ⟨_, heq⟩ | ⟨h, heq⟩ <;> rw [heq]
  rcases leRota_escreveRota_cases rt.rotas (leRota pk.rotas (k : Int)).destino d
      { destino := (leRota rt.rotas (leRota pk.rotas (k : Int)).destino).destino
        caminho := pk.remetente
        custo := (leRota pk.rotas (k : Int)).custo +
          (leRota rt.rotas pk.remetente).custo } with hc | ⟨hd, hc⟩
  · rw [hc]
  · rw [hc, hd]

theorem relaxa_TetoOk (rt : roteador) (pk : pacote_t) (k : Nat) (h : TetoOk rt) :
    TetoOk (relaxa rt pk k).1 := by
  intro d h0 h6
  calc (leRota ((relaxa rt pk k).1).rotas d).custo
      ≤ (leRota rt.rotas d).custo := relaxa_custo_le rt pk k d
    _ ≤ INFINITO := h d h0 h6

theorem relaxa_TabelaOk (rt : roteador) (pk : pacote_t) (k : Nat)
    (hrem : 0 ≤ pk.remetente) (h : TabelaOk rt) : TabelaOk (relaxa rt pk k).1 := by
  intro d h0 h6
  rcases relaxa_caracteriza rt pk k with ⟨_, heq⟩ | ⟨hlt, heq⟩ <;> rw [heq]
  · exact h d h0 h6
  rcases leRota_escreveRota_cases rt.rotas (leRota pk.rotas (k : Int)).destino d
      { destino := (leRota rt.rotas (leRota pk.rotas (k : Int)).destino).destino
        caminho := pk.remetente
        custo := (leRota pk.rotas (k : Int)).custo +
          (leRota rt.rotas pk.remetente).custo } with hc | ⟨hd, hc⟩
  · rw [hc]
    exact h d h0 h6
  · rcases h d h0 h6 with ⟨hdst, hteto, _⟩
    rw [hc]
    rw [hd] at hteto hdst ⊢
    refine ⟨hdst, ?_, ?_⟩
    · exact le_of_lt (lt_of_lt_of_le hlt hteto)
    · constructor
      · intro hcu
        simp only at hcu
        omega
      · intro hca
        simp only at hca
        omega

end VetorDistancia

namespace VetorDistancia

/-! Lemmas about processing one packet and draining the mailbox. -/

theorem processa_laco_intervalo (pk : pacote_t) (l : List Nat) :
    ∀ a : roteador × Nat, ((processa_laco pk l a).1).intervalo = a.1.intervalo := by
  induction l with
  | nil => intro a; rfl
  | cons k ks ih =>
      intro a
      simp only [processa_laco]
      rw [ih]
      exact relaxa_intervalo _ _ _

theorem processa_laco_idx (pk : pacote_t) (l : List Nat) :
    ∀ a : roteador × Nat, ((processa_laco pk l a).1).idx = a.1.idx := by
  induction l with
  | nil => intro a; rfl
  | cons k ks ih =>
      intro a
      simp only [processa_laco]
      rw [ih]
      exact relaxa_idx _ _ _

theorem processa_laco_entrada (pk : pacote_t) (l : List Nat) :
    ∀ a : roteador × Nat, ((processa_laco pk l a).1).entrada = a.1.entrada := by
  induction l with
  | nil => intro a; rfl
  | cons k ks ih =>
      intro a
      simp only [processa_laco]
      rw [ih]
      exact relaxa_entrada _ _ _

theorem processa_laco_rotas_length (pk : pacote_t) (l : List Nat) :
    ∀ a : roteador × Nat, ((processa_laco pk l a).1).rotas.length = a.1.rotas.length := by
  induction l with
  | nil => intro a; rfl
  | cons k ks ih =>
      intro a
      simp only [processa_laco]
      rw [ih]
      exact relaxa_rotas_length _ _ _

theorem processa_laco_custo_le (pk : pacote_t) (l : List Nat) :
    ∀ (a : roteador × Nat) (d : Int),
      (leRota ((processa_laco pk l a).1).rotas d).custo ≤ (leRota a.1.rotas d).custo := by
  induction l with
  | nil => intro a d; exact le_refl _
  | cons k ks ih =>
      intro a d
      simp only [processa_laco]
      exact le_trans (ih _ d) (relaxa_custo_le _ _ _ d)

theorem processa_laco_TetoOk (pk : pacote_t) (l : List Nat) :
    ∀ a : roteador × Nat, TetoOk a.1 → TetoOk (processa_laco pk l a).1 := by
  induction l with
  | nil => intro a h; exact h
  | cons k ks ih =>
      intro a h
      simp only [processa_laco]
      exact ih _ (relaxa_TetoOk _ _ _ h)

theorem processa_laco_TabelaOk (pk : pacote_t) (hrem : 0 ≤ pk.remetente) (l : List Nat) :
    ∀ a : roteador × Nat, TabelaOk a.1 → TabelaOk (processa_laco pk l a).1 := by
  induction l with
  | nil => intro a h; exact h
  | cons k ks ih =>
      intro a h
      simp only [processa_laco]
      exact ih _ (relaxa_TabelaOk _ _ _ hrem h)

theorem processa_pacote_idx (rt : roteador) (pk : pacote_t) :
    ((processa_pacote rt pk).1).idx = rt.idx :=
  processa_laco_idx pk (List.range N_ROTEADORES) (rt, 0)

theorem processa_pacote_entrada (rt : roteador) (pk : pacote_t) :
    ((processa_pacote rt pk).1).entrada = rt.entrada :=
  processa_laco_entrada pk (List.range N_ROTEADORES) (rt, 0)

theorem processa_pacote_intervalo (rt : roteador) (pk : pacote_t) :
    ((processa_pacote rt pk).1).intervalo = rt.intervalo :=
  processa_laco_intervalo pk (List.range N_ROTEADORES) (rt, 0)

theorem processa_pacote_rotas_length (rt : roteador) (pk : pacote_t) :
    ((processa_pacote rt pk).1).rotas.length = rt.rotas.length :=
  processa_laco_rotas_length pk (List.range N_ROTEADORES) (rt, 0)

theorem recebe_laco_entrada :
    ∀ (fuel : Nat) (rt : roteador) (delta : Nat),
      ((recebe_laco fuel rt delta).1).entrada = rt.entrada := by
  intro fuel
  induction fuel with
  | zero => intro rt delta; rfl
  | succ n ih =>
      intro rt delta
      simp only [recebe_laco]
      split
      · rfl
      · rw [ih]
        exact processa_laco_entrada _ _ _

theorem recebe_laco_intervalo :
    ∀ (fuel : Nat) (rt : roteador) (delta : Nat),
      ((recebe_laco fuel rt delta).1).intervalo = rt.intervalo := by
  intro fuel
  induction fuel with
  | zero => intro rt delta; rfl
  | succ n ih =>
      intro rt delta
      simp only [recebe_laco]
      split
      · rfl
      · rw [ih]
        exact processa_laco_intervalo _ _ _

theorem recebe_laco_rotas_length :
    ∀ (fuel : Nat) (rt : roteador) (delta : Nat),
      ((recebe_laco fuel rt delta).1).rotas.length = rt.rotas.length := by
  intro fuel
  induction fuel with
  | zero => intro rt delta; rfl
  | succ n ih =>
      intro rt delta
      simp only [recebe_laco]
      split
      · rfl
      · rw [ih]
        exact processa_laco_rotas_length _ _ _

theorem recebe_laco_idx :
    ∀ (fuel : Nat) (rt : roteador) (delta : Nat),
      ((recebe_laco fuel rt delta).1).idx = rt.idx - fuel := by
  intro fuel
  induction fuel with
  | zero => intro rt delta; rfl
  | succ n ih =>
      intro rt delta
      simp only [recebe_laco]
      split
      · rename_i h
        simp [h]
      · rename_i h
        rw [ih]
        rw [processa_pacote_idx]
        show rt.idx - 1 - n = rt.idx - (n + 1)
        omega

theorem recebe_laco_custo_le :
    ∀ (fuel : Nat) (rt : roteador) (delta : Nat) (d : Int),
      (leRota ((recebe_laco fuel rt delta).1).rotas d).custo ≤ (leRota rt.rotas d).custo := by
  intro fuel
  induction fuel with
  | zero => intro rt delta d; exact le_refl _
  | succ n ih =>
      intro rt delta d
      simp only [recebe_laco]
      split
      · exact le_refl _
      · exact le_trans (ih _ _ d) (processa_laco_custo_le _ _ _ d)

theorem recebe_laco_TetoOk :
    ∀ (fuel : Nat) (rt : roteador) (delta : Nat),
      TetoOk rt → TetoOk (recebe_laco fuel rt delta).1 := by
  intro fuel
  induction fuel with
  | zero => intro rt delta h; exact h
  | succ n ih =>
      intro rt delta h
      simp only [recebe_laco]
      split
      · exact h
      · exact ih _ _ (processa_laco_TetoOk _ _ _ h)

theorem recebe_laco_Tabela_Caixa :
    ∀ (fuel : Nat) (rt : roteador) (delta : Nat),
      TabelaOk rt → CaixaOk rt →
      TabelaOk (recebe_laco fuel rt delta).1 ∧ CaixaOk (recebe_laco fuel rt delta).1 := by
  intro fuel
  induction fuel with
  | zero => intro rt delta hT hC; exact ⟨hT, hC⟩
  | succ n ih =>
      intro rt delta hT hC
      simp only [recebe_laco]
      split
      · exact ⟨hT, hC⟩
      · rename_i h
        apply ih
        · apply processa_laco_TabelaOk
          · exact hC (rt.idx - 1) (by omega)
          · exact hT
        · intro p hp
          rw [processa_pacote_entrada]
          rw [processa_pacote_idx] at hp
          have hp2 : p < rt.idx - 1 := hp
          exact hC p (by omega)

end VetorDistancia

namespace VetorDistancia

/-! Lemmas about a whole receive call. -/

theorem recebe_pacote_outro (r : List roteador) (dst i : Nat) (h : i ≠ dst) :
    leR (recebe_pacote r dst).1 i = leR r i :=
  leR_escreveR_ne r dst i _ h

theorem recebe_pacote_proprio (r : List roteador) (dst : Nat) (h : dst < r.length) :
    leR (recebe_pacote r dst).1 dst = (recebe_laco (leR r dst).idx (leR r dst) 0).1 :=
  leR_escreveR_self r dst _ h

theorem recebe_pacote_idx_zero (r : List roteador) (dst : Nat) (h : dst < r.length) :
    (leR (recebe_pacote r dst).1 dst).idx = 0 := by
  rw [recebe_pacote_proprio r dst h, recebe_laco_idx]
  omega

theorem recebe_pacote_length (r : List roteador) (dst : Nat) :
    (recebe_pacote r dst).1.length = r.length :=
  length_escreveR r dst _

theorem recebe_pacote_custo_le (r : List roteador) (dst i : Nat) (d : Int) :
    (leRota (leR (recebe_pacote r dst).1 i).rotas d).custo ≤
      (leRota (leR r i).rotas d).custo := by
  rcases leR_escreveR_cases2 r dst i (recebe_laco (leR r dst).idx (leR r dst) 0).1
    with hc | ⟨hid, hc⟩
  · rw [show (recebe_pacote r dst).1 = escreveR r dst
        (recebe_laco (leR r dst).idx (leR r dst) 0).1 from rfl, hc]
  · rw [show (recebe_pacote r dst).1 = escreveR r dst
        (recebe_laco (leR r dst).idx (leR r dst) 0).1 from rfl, hc, hid]
    exact recebe_laco_custo_le _ _ _ d

theorem recebe_pacote_EstadoTabelaOk (r : List roteador) (dst : Nat)
    (h : EstadoTabelaOk r) : EstadoTabelaOk (recebe_pacote r dst).1 := by
  intro i hi
  rcases leR_escreveR_cases2 r dst i (recebe_laco (leR r dst).idx (leR r dst) 0).1
    with hc | ⟨hid, hc⟩
  · rw [show (recebe_pacote r dst).1 = escreveR r dst
        (recebe_laco (leR r dst).idx (leR r dst) 0).1 from rfl, hc]
    exact h i hi
  · rw [show (recebe_pacote r dst).1 = escreveR r dst
        (recebe_laco (leR r dst).idx (leR r dst) 0).1 from rfl, hc]
    subst hid
    rcases h i hi with ⟨hT, hC⟩
    exact recebe_laco_Tabela_Caixa _ _ _ hT hC

theorem recebe_pacote_EstadoTetoOk (r : List roteador) (dst : Nat)
    (h : EstadoTetoOk r) : EstadoTetoOk (recebe_pacote r dst).1 := by
  intro i hi
  rcases leR_escreveR_cases2 r dst i (recebe_laco (leR r dst).idx (leR r dst) 0).1
    with hc | ⟨hid, hc⟩
  · rw [show (recebe_pacote r dst).1 = escreveR r dst
        (recebe_laco (leR r dst).idx (leR r dst) 0).1 from rfl, hc]
    exact h i hi
  · rw [show (recebe_pacote r dst).1 = escreveR r dst
        (recebe_laco (leR r dst).idx (leR r dst) 0).1 from rfl, hc]
    subst hid
    exact recebe_laco_TetoOk _ _ _ (h i hi)

theorem recebe_pacote_forma (r : List roteador) (dst : Nat)
    (h : ∀ i < N_ROTEADORES,
      (leR r i).rotas.length = N_ROTEADORES ∧ (leR r i).entrada.length = PKT_BUFFER ∧
        (leR r i).idx ≤ PKT_BUFFER) :
    ∀ i < N_ROTEADORES,
      (leR (recebe_pacote r dst).1 i).rotas.length = N_ROTEADORES ∧
      (leR (recebe_pacote r dst).1 i).entrada.length = PKT_BUFFER ∧
      (leR (recebe_pacote r dst).1 i).idx ≤ PKT_BUFFER := by
  intro i hi
  rcases leR_escreveR_cases2 r dst i (recebe_laco (leR r dst).idx (leR r dst) 0).1
    with hc | ⟨hid, hc⟩
  · rw [show (recebe_pacote r dst).1 = escreveR r dst
        (recebe_laco (leR r dst).idx (leR r dst) 0).1 from rfl, hc]
    exact h i hi
  · rw [show (recebe_pacote r dst).1 = escreveR r dst
        (recebe_laco (leR r dst).idx (leR r dst) 0).1 from rfl, hc]
    subst hid
    rcases h i hi with ⟨h1, h2, h3⟩
    refine ⟨?_, ?_, ?_⟩
    · rw [recebe_laco_rotas_length]; exact h1
    · rw [recebe_laco_entrada]; exact h2
    · rw [recebe_laco_idx]; omega

/-! Bounds on the adjacency matrix entries and the existe check. -/

theorem getD_mem_or {α : Type} (l : List α) (n : Nat) (d : α) :
    l.getD n d ∈ l ∨ l.getD n d = d := by
  by_cases h : n < l.length
  · left
    rw [List.getD_eq_getElem?_getD, List.getElem?_eq_getElem h]
    exact List.getElem_mem h
  · right
    rw [List.getD_eq_getElem?_getD, List.getElem?_eq_none (by omega)]
    rfl

theorem conexoes_bounds (s k : Nat) :
    -1 ≤ conexoes_enlaces s k ∧ conexoes_enlaces s k < 6 := by
  unfold conexoes_enlaces
  rcases getD_mem_or linhas_enlaces s [] with hr | hr
  · rcases getD_mem_or (linhas_enlaces.getD s []) k (-1) with hv | hv
    · exact (by decide : ∀ row ∈ linhas_enlaces, ∀ v ∈ row, -1 ≤ v ∧ v < 6) _ hr _ hv
    · rw [hv]
      norm_num
  · rw [hr]
    simp

theorem existe_enlace_lt (src dst : Nat) (h : existe_enlace src dst = true) : dst < 6 := by
  unfold existe_enlace at h
  rw [List.any_eq_true] at h
  rcases h with ⟨k, _, hkeq⟩
  rw [beq_iff_eq] at hkeq
  have hb := (conexoes_bounds src k).2
  rw [hkeq] at hb
  exact_mod_cast hb

/-! Lemmas about the delivery loop of envia_pacotes. -/

theorem envia_laco_rotas (pkt : pacote_t) (src : Nat) (l : List Nat) :
    ∀ (a : List roteador × Nat) (i : Nat),
      (leR (envia_laco pkt src l a).1 i).rotas = (leR a.1 i).rotas := by
  induction l with
  | nil => intro a i; rfl
  | cons dst rest ih =>
      intro a i
      simp only [envia_laco]
      split
      · split
        · rw [ih]
        · rw [ih]
          rcases leR_escreveR_cases2 a.1 dst i
              { leR a.1 dst with
                entrada := escrevePacote (leR a.1 dst).entrada (leR a.1 dst).idx pkt
                idx := (leR a.1 dst).idx + 1 } with hc | ⟨hid, hc⟩
          · rw [hc]
          · rw [hc, hid]
      · rw [ih]

theorem envia_laco_intervalo (pkt : pacote_t) (src : Nat) (l : List Nat) :
    ∀ (a : List roteador × Nat) (i : Nat),
      (leR (envia_laco pkt src l a).1 i).intervalo = (leR a.1 i).intervalo := by
  induction l with
  | nil => intro a i; rfl
  | cons dst rest ih =>
      intro a i
      simp only [envia_laco]
      split
      · split
        · rw [ih]
        · rw [ih]
          rcases leR_escreveR_cases2 a.1 dst i
              { leR a.1 dst with
                entrada := escrevePacote (leR a.1 dst).entrada (leR a.1 dst).idx pkt
                idx := (leR a.1 dst).idx + 1 } with hc | ⟨hid, hc⟩
          · rw [hc]
          · rw [hc, hid]
      · rw [ih]

theorem envia_laco_length (pkt : pacote_t) (src : Nat) (l : List Nat) :
    ∀ a : List roteador × Nat, (envia_laco pkt src l a).1.length = a.1.length := by
  induction l with
  | nil => intro a; rfl
  | cons dst rest ih =>
      intro a
      simp only [envia_laco]
      split
      · split
        · rw [ih]
        · rw [ih]
          exact List.length_set _ _ _
      · rw [ih]

theorem envia_laco_cheio (pkt : pacote_t) (src : Nat) (l : List Nat) :
    ∀ (a : List roteador × Nat) (d : Nat), (leR a.1 d).idx = PKT_BUFFER →
      leR (envia_laco pkt src l a).1 d = leR a.1 d := by
  induction l with
  | nil => intro a d _; rfl
  | cons dst rest ih =>
      intro a d hfull
      simp only [envia_laco]
      split
      · split
        · exact ih _ d hfull
        · rename_i hnf
          have hne : d ≠ dst := by
            intro he
            exact hnf (he ▸ hfull)
          rw [ih]
          · exact leR_escreveR_ne _ _ _ _ hne
          · rw [leR_escreveR_ne _ _ _ _ hne]
            exact hfull
      · exact ih _ d hfull

theorem envia_laco_quedas_mono (pkt : pacote_t) (src : Nat) (l : List Nat) :
    ∀ (r : List roteador) (n : Nat), n ≤ (envia_laco pkt src l (r, n)).2 := by
  induction l with
  | nil => intro r n; exact le_refl _
  | cons dst rest ih =>
      intro r n
      simp only [envia_laco]
      split
      · split
        · exact le_trans (Nat.le_succ _) (ih _ (n + 1))
        · exact ih _ n
      · exact ih _ n

theorem envia_laco_quedas (pkt : pacote_t) (src : Nat) (l : List Nat) (hl : l.Nodup) :
    ∀ (r : List roteador) (n : Nat),
      (envia_laco pkt src l (r, n)).2 =
        n + ((l.filter fun d => existe_enlace src d && ((leR r d).idx == PKT_BUFFER)).length) := by
  induction l with
  | nil => intro r n; rfl
  | cons dst rest ih =>
      intro r n
      rcases List.nodup_cons.mp hl with ⟨hnm, hnd⟩
      simp only [envia_laco, List.filter_cons]
      by_cases hex : existe_enlace src dst = true
      · by_cases hfull : (leR r dst).idx = PKT_BUFFER
        · rw [if_pos hex, if_pos hfull, ih hnd]
          have : (existe_enlace src dst && ((leR r dst).idx == PKT_BUFFER)) = true := by
            rw [hex, hfull]
            simp
          rw [if_pos this]
          simp only [List.length_cons]
          omega
        · rw [if_pos hex, if_neg hfull, ih hnd]
          have hpred : (existe_enlace src dst && ((leR r dst).idx == PKT_BUFFER)) = false := by
            rw [hex]
            simp only [Bool.true_and]
            exact beq_eq_false_iff_ne.mpr hfull
          rw [hpred]
          simp only [Bool.false_eq_true, if_false]
          congr 1
          apply congrArg
          apply List.filter_congr
          intro x hx
          have hxne : x ≠ dst := fun he => hnm (he ▸ hx)
          rw [leR_escreveR_ne _ _ _ _ hxne]
      · rw [if_neg hex]
        rw [ih hnd]
        have hpred : (existe_enlace src dst && ((leR r dst).idx == PKT_BUFFER)) = false := by
          rw [Bool.and_eq_false_iff]
          left
          exact Bool.not_eq_true _ ▸ (by simpa using hex)
        rw [hpred]
        simp

end VetorDistancia

namespace VetorDistancia

/-- The delivery loop preserves the structural invariant: mailbox shape,
stack pointer bound and non-negative senders, provided the pushed packet
itself has a non-negative sender. -/
theorem envia_laco_inv (pkt : pacote_t) (src : Nat) (hrem : 0 ≤ pkt.remetente)
    (l : List Nat) :
    ∀ a : List roteador × Nat,
      (∀ i < N_ROTEADORES,
        (leR a.1 i).entrada.length = PKT_BUFFER ∧ (leR a.1 i).idx ≤ PKT_BUFFER ∧
          CaixaOk (leR a.1 i)) →
      ∀ i < N_ROTEADORES,
        (leR (envia_laco pkt src l a).1 i).entrada.length = PKT_BUFFER ∧
        (leR (envia_laco pkt src l a).1 i).idx ≤ PKT_BUFFER ∧
        CaixaOk (leR (envia_laco pkt src l a).1 i) := by
  induction l with
  | nil => intro a hpre i hi; exact hpre i hi
  | cons dst rest ih =>
      intro a hpre
      simp only [envia_laco]
      split
      · rename_i hex
        split
        · exact ih _ hpre
        · rename_i hnf
          apply ih
          intro i hi
          rcases leR_escreveR_cases2 a.1 dst i
              { leR a.1 dst with
                entrada := escrevePacote (leR a.1 dst).entrada (leR a.1 dst).idx pkt
                idx := (leR a.1 dst).idx + 1 } with hc | ⟨hid, hc⟩
          · rw [hc]
            exact hpre i hi
          · rw [hc]
            subst hid
            rcases hpre i hi with ⟨h1, h2, h3⟩
            have hlt : (leR a.1 i).idx < PKT_BUFFER := by
              rcases Nat.lt_or_ge (leR a.1 i).idx PKT_BUFFER with hx | hx
              · exact hx
              · exact absurd (le_antisymm h2 hx) hnf
            refine ⟨?_, ?_, ?_⟩
            · exact (length_escrevePacote _ _ _).trans h1
            · show (leR a.1 i).idx + 1 ≤ PKT_BUFFER
              omega
            · intro p hp
              have hp2 : p < (leR a.1 i).idx + 1 := hp
              by_cases hpe : p = (leR a.1 i).idx
              · show 0 ≤ (lePacote (escrevePacote (leR a.1 i).entrada (leR a.1 i).idx pkt) p).remetente
                rw [hpe, lePacote_escrevePacote_self _ _ _ (by omega)]
                exact hrem
              · show 0 ≤ (lePacote (escrevePacote (leR a.1 i).entrada (leR a.1 i).idx pkt) p).remetente
                rw [lePacote_escrevePacote_ne _ _ _ _ hpe]
                exact h3 p (by omega)
      · exact ih _ hpre

/-! Lemmas about a whole send call. -/

theorem envia_pacotes_cheio (r : List roteador) (src d : Nat)
    (h : (leR r d).idx = PKT_BUFFER) : leR (envia_pacotes r src).1 d = leR r d :=
  envia_laco_cheio _ src (List.range N_ROTEADORES) (r, 0) d h

theorem envia_pacotes_quedas (r : List roteador) (src : Nat) :
    (envia_pacotes r src).2 = quedas_de_envio r src := by
  have h := envia_laco_quedas
    ({ remetente := (src : Int), rotas := (leR r src).rotas } : pacote_t)
    src (List.range N_ROTEADORES) (List.nodup_range N_ROTEADORES) r 0
  exact h.trans (Nat.zero_add _)

theorem envia_pacotes_rotas (r : List roteador) (src i : Nat) :
    (leR (envia_pacotes r src).1 i).rotas = (leR r i).rotas :=
  envia_laco_rotas _ src (List.range N_ROTEADORES) (r, 0) i

theorem envia_pacotes_intervalo (r : List roteador) (src i : Nat) :
    (leR (envia_pacotes r src).1 i).intervalo = (leR r i).intervalo :=
  envia_laco_intervalo _ src (List.range N_ROTEADORES) (r, 0) i

theorem envia_pacotes_length (r : List roteador) (src : Nat) :
    (envia_pacotes r src).1.length = r.length :=
  envia_laco_length _ src (List.range N_ROTEADORES) (r, 0)

theorem envia_pacotes_inv (r : List roteador) (src : Nat)
    (hpre : ∀ i < N_ROTEADORES,
      (leR r i).entrada.length = PKT_BUFFER ∧ (leR r i).idx ≤ PKT_BUFFER ∧
        CaixaOk (leR r i)) :
    ∀ i < N_ROTEADORES,
      (leR (envia_pacotes r src).1 i).entrada.length = PKT_BUFFER ∧
      (leR (envia_pacotes r src).1 i).idx ≤ PKT_BUFFER ∧
      CaixaOk (leR (envia_pacotes r src).1 i) :=
  envia_laco_inv _ src (Int.natCast_nonneg src) (List.range N_ROTEADORES) (r, 0) hpre

/-- TabelaOk depends only on the routing table. -/
theorem TabelaOk_rotas_eq (rt rt2 : roteador) (h : rt2.rotas = rt.rotas)
    (hT : TabelaOk rt) : TabelaOk rt2 := by
  intro d h0 h6
  rw [h]
  exact hT d h0 h6

/-- TetoOk depends only on the routing table. -/
theorem TetoOk_rotas_eq (rt rt2 : roteador) (h : rt2.rotas = rt.rotas)
    (hT : TetoOk rt) : TetoOk rt2 := by
  intro d h0 h6
  rw [h]
  exact hT d h0 h6

end VetorDistancia

namespace VetorDistancia

/-! Lemmas about the receive phase of a step. -/

theorem laco_recebimento_length (l : List Nat) :
    ∀ a : List roteador × Nat, (laco_recebimento l a).1.length = a.1.length := by
  induction l with
  | nil => intro a; rfl
  | cons i rest ih =>
      intro a
      simp only [laco_recebimento]
      rw [ih]
      exact recebe_pacote_length _ _

theorem recebe_pacote_CaixaOk (r : List roteador) (dst : Nat)
    (h : ∀ i < N_ROTEADORES, CaixaOk (leR r i)) :
    ∀ i < N_ROTEADORES, CaixaOk (leR (recebe_pacote r dst).1 i) := by
  intro i hi
  rcases leR_escreveR_cases2 r dst i (recebe_laco (leR r dst).idx (leR r dst) 0).1
    with hc | ⟨hid, hc⟩
  · rw [show (recebe_pacote r dst).1 = escreveR r dst
        (recebe_laco (leR r dst).idx (leR r dst) 0).1 from rfl, hc]
    exact h i hi
  · rw [show (recebe_pacote r dst).1 = escreveR r dst
        (recebe_laco (leR r dst).idx (leR r dst) 0).1 from rfl, hc]
    intro p hp
    rw [recebe_laco_idx] at hp
    omega

theorem laco_recebimento_estrutura (l : List Nat) :
    ∀ a : List roteador × Nat,
      (∀ i < N_ROTEADORES,
        (leR a.1 i).rotas.length = N_ROTEADORES ∧
        (leR a.1 i).entrada.length = PKT_BUFFER ∧
        (leR a.1 i).idx ≤ PKT_BUFFER ∧ CaixaOk (leR a.1 i)) →
      ∀ i < N_ROTEADORES,
        (leR (laco_recebimento l a).1 i).rotas.length = N_ROTEADORES ∧
        (leR (laco_recebimento l a).1 i).entrada.length = PKT_BUFFER ∧
        (leR (laco_recebimento l a).1 i).idx ≤ PKT_BUFFER ∧
        CaixaOk (leR (laco_recebimento l a).1 i) := by
  induction l with
  | nil => intro a h i hi; exact h i hi
  | cons j rest ih =>
      intro a h
      simp only [laco_recebimento]
      apply ih
      intro i hi
      have hforma := recebe_pacote_forma a.1 j
        (fun i2 hi2 => ⟨(h i2 hi2).1, (h i2 hi2).2.1, (h i2 hi2).2.2.1⟩) i hi
      have hcaixa := recebe_pacote_CaixaOk a.1 j (fun i2 hi2 => (h i2 hi2).2.2.2) i hi
      exact ⟨hforma.1, hforma.2.1, hforma.2.2, hcaixa⟩

theorem laco_recebimento_EstadoTabelaOk (l : List Nat) :
    ∀ a : List roteador × Nat, EstadoTabelaOk a.1 →
      EstadoTabelaOk (laco_recebimento l a).1 := by
  induction l with
  | nil => intro a h; exact h
  | cons j rest ih =>
      intro a h
      simp only [laco_recebimento]
      exact ih _ (recebe_pacote_EstadoTabelaOk _ _ h)

theorem laco_recebimento_EstadoTetoOk (l : List Nat) :
    ∀ a : List roteador × Nat, EstadoTetoOk a.1 →
      EstadoTetoOk (laco_recebimento l a).1 := by
  induction l with
  | nil => intro a h; exact h
  | cons j rest ih =>
      intro a h
      simp only [laco_recebimento]
      exact ih _ (recebe_pacote_EstadoTetoOk _ _ h)

/-! Lemmas about the send phase of a step. -/

theorem laco_envio_rotas (iv : Nat → Nat) (l : List Nat) :
    ∀ (a : List roteador × Nat) (i : Nat),
      (leR (laco_envio iv l a).1 i).rotas = (leR a.1 i).rotas := by
  induction l with
  | nil => intro a i; rfl
  | cons j rest ih =>
      intro a i
      simp only [laco_envio]
      split
      · rw [ih]
        rcases leR_escreveR_cases2 a.1 j i
            { leR a.1 j with intervalo := (leR a.1 j).intervalo - 1 } with hc | ⟨hid, hc⟩
        · rw [hc]
        · rw [hc, hid]
      · rw [ih]
        rcases leR_escreveR_cases2 (envia_pacotes a.1 j).1 j i
            { leR (envia_pacotes a.1 j).1 j with intervalo := iv j } with hc | ⟨hid, hc⟩
        · rw [hc]
          exact envia_pacotes_rotas _ _ _
        · rw [hc, hid]
          show (leR (envia_pacotes a.1 j).1 j).rotas = (leR a.1 j).rotas
          exact envia_pacotes_rotas _ _ _

theorem laco_envio_length (iv : Nat → Nat) (l : List Nat) :
    ∀ a : List roteador × Nat, (laco_envio iv l a).1.length = a.1.length := by
  induction l with
  | nil => intro a; rfl
  | cons j rest ih =>
      intro a
      simp only [laco_envio]
      split
      · rw [ih]
        exact List.length_set _ _ _
      · rw [ih]
        rw [show escreveR (envia_pacotes a.1 j).1 j
            { leR (envia_pacotes a.1 j).1 j with intervalo := iv j } =
            ((envia_pacotes a.1 j).1).set j _ from rfl]
        rw [List.length_set]
        exact envia_pacotes_length _ _

theorem laco_envio_estrutura (iv : Nat → Nat) (l : List Nat) :
    ∀ a : List roteador × Nat,
      (∀ i < N_ROTEADORES,
        (leR a.1 i).entrada.length = PKT_BUFFER ∧
        (leR a.1 i).idx ≤ PKT_BUFFER ∧ CaixaOk (leR a.1 i)) →
      ∀ i < N_ROTEADORES,
        (leR (laco_envio iv l a).1 i).entrada.length = PKT_BUFFER ∧
        (leR (laco_envio iv l a).1 i).idx ≤ PKT_BUFFER ∧
        CaixaOk (leR (laco_envio iv l a).1 i) := by
  induction l with
  | nil => intro a h i hi; exact h i hi
  | cons j rest ih =>
      intro a h
      simp only [laco_envio]
      split
      · apply ih
        intro i hi
        rcases leR_escreveR_cases2 a.1 j i
            { leR a.1 j with intervalo := (leR a.1 j).intervalo - 1 } with hc | ⟨hid, hc⟩
        · rw [hc]
          exact h i hi
        · rw [hc]
          exact h j (hid ▸ hi)
      · apply ih
        intro i hi
        have henv := envia_pacotes_inv a.1 j h
        rcases leR_escreveR_cases2 (envia_pacotes a.1 j).1 j i
            { leR (envia_pacotes a.1 j).1 j with intervalo := iv j } with hc | ⟨hid, hc⟩
        · rw [hc]
          exact henv i hi
        · rw [hc]
          exact henv j (hid ▸ hi)

theorem laco_envio_quedas_mono (iv : Nat → Nat) (l : List Nat) :
    ∀ (r : List roteador) (n : Nat), n ≤ (laco_envio iv l (r, n)).2 := by
  induction l with
  | nil => intro r n; exact le_refl _
  | cons j rest ih =>
      intro r n
      simp only [laco_envio]
      split
      · exact ih _ n
      · exact le_trans (Nat.le_add_right n _) (ih _ _)

/-! Lemmas about one whole simulation step. -/

theorem passo_pkt_drop (s : SimState) (iv : Nat → Nat) :
    s.pkt_drop ≤ (passo_de_simulacao s iv).1.pkt_drop :=
  Nat.le_add_right _ _

theorem passo_length (s : SimState) (iv : Nat → Nat) :
    (passo_de_simulacao s iv).1.roteadores.length = s.roteadores.length := by
  show (laco_recebimento (List.range N_ROTEADORES) _).1.length = _
  rw [laco_recebimento_length]
  exact laco_envio_length _ _ _

theorem passo_estrutura (s : SimState) (iv : Nat → Nat)
    (h : ∀ i < N_ROTEADORES,
      (leR s.roteadores i).rotas.length = N_ROTEADORES ∧
      (leR s.roteadores i).entrada.length = PKT_BUFFER ∧
      (leR s.roteadores i).idx ≤ PKT_BUFFER ∧ CaixaOk (leR s.roteadores i)) :
    ∀ i < N_ROTEADORES,
      (leR (passo_de_simulacao s iv).1.roteadores i).rotas.length = N_ROTEADORES ∧
      (leR (passo_de_simulacao s iv).1.roteadores i).entrada.length = PKT_BUFFER ∧
      (leR (passo_de_simulacao s iv).1.roteadores i).idx ≤ PKT_BUFFER ∧
      CaixaOk (leR (passo_de_simulacao s iv).1.roteadores i) := by
  apply laco_recebimento_estrutura
  intro i hi
  refine ⟨?_, ?_⟩
  · rw [laco_envio_rotas]
    exact (h i hi).1
  · exact laco_envio_estrutura iv (List.range N_ROTEADORES) (s.roteadores, 0)
      (fun i2 hi2 => ⟨(h i2 hi2).2.1, (h i2 hi2).2.2.1, (h i2 hi2).2.2.2⟩) i hi

theorem passo_EstadoTabelaOk (s : SimState) (iv : Nat → Nat)
    (hstr : ∀ i < N_ROTEADORES,
      (leR s.roteadores i).entrada.length = PKT_BUFFER ∧
      (leR s.roteadores i).idx ≤ PKT_BUFFER ∧ CaixaOk (leR s.roteadores i))
    (h : EstadoTabelaOk s.roteadores) :
    EstadoTabelaOk (passo_de_simulacao s iv).1.roteadores := by
  apply laco_recebimento_EstadoTabelaOk
  intro i hi
  constructor
  · apply TabelaOk_rotas_eq (leR s.roteadores i)
    · exact laco_envio_rotas iv (List.range N_ROTEADORES) (s.roteadores, 0) i
    · exact (h i hi).1
  · exact (laco_envio_estrutura iv (List.range N_ROTEADORES) (s.roteadores, 0)
      hstr i hi).2.2

theorem passo_EstadoTetoOk (s : SimState) (iv : Nat → Nat)
    (h : EstadoTetoOk s.roteadores) :
    EstadoTetoOk (passo_de_simulacao s iv).1.roteadores := by
  apply laco_recebimento_EstadoTetoOk
  intro i hi
  apply TetoOk_rotas_eq (leR s.roteadores i)
  · exact laco_envio_rotas iv (List.range N_ROTEADORES) (s.roteadores, 0) i
  · exact h i hi

end VetorDistancia

namespace VetorDistancia

/-! Invariants along whole runs. -/

theorem reaches_pkt_drop_mono (s0 t : SimState) (h : Reaches s0 t) :
    s0.pkt_drop ≤ t.pkt_drop := by
  induction h with
  | refl => exact le_refl _
  | next t iv hr hok ih => exact le_trans ih (passo_pkt_drop t iv)

theorem reaches_length (s0 t : SimState) (h : Reaches s0 t) :
    t.roteadores.length = s0.roteadores.length := by
  induction h with
  | refl => rfl
  | next t iv hr hok ih => exact (passo_length t iv).trans ih

theorem reaches_estrutura (s0 t : SimState) (h : Reaches s0 t)
    (h0 : ∀ i < N_ROTEADORES,
      (leR s0.roteadores i).rotas.length = N_ROTEADORES ∧
      (leR s0.roteadores i).entrada.length = PKT_BUFFER ∧
      (leR s0.roteadores i).idx ≤ PKT_BUFFER ∧ CaixaOk (leR s0.roteadores i)) :
    ∀ i < N_ROTEADORES,
      (leR t.roteadores i).rotas.length = N_ROTEADORES ∧
      (leR t.roteadores i).entrada.length = PKT_BUFFER ∧
      (leR t.roteadores i).idx ≤ PKT_BUFFER ∧ CaixaOk (leR t.roteadores i) := by
  induction h with
  | refl => exact h0
  | next t iv hr hok ih => exact passo_estrutura t iv ih

theorem reaches_EstadoTabelaOk (s0 t : SimState) (h : Reaches s0 t)
    (h0 : ∀ i < N_ROTEADORES,
      (leR s0.roteadores i).rotas.length = N_ROTEADORES ∧
      (leR s0.roteadores i).entrada.length = PKT_BUFFER ∧
      (leR s0.roteadores i).idx ≤ PKT_BUFFER ∧ CaixaOk (leR s0.roteadores i))
    (hT : EstadoTabelaOk s0.roteadores) :
    EstadoTabelaOk t.roteadores := by
  induction h with
  | refl => exact hT
  | next t iv hr hok ih =>
      have hstr := reaches_estrutura s0 t hr h0
      exact passo_EstadoTabelaOk t iv
        (fun i hi => ⟨(hstr i hi).2.1, (hstr i hi).2.2.1, (hstr i hi).2.2.2⟩) ih

theorem reaches_EstadoTetoOk (s0 t : SimState) (h : Reaches s0 t)
    (hT : EstadoTetoOk s0.roteadores) :
    EstadoTetoOk t.roteadores := by
  induction h with
  | refl => exact hT
  | next t iv hr hok ih => exact passo_EstadoTetoOk t iv ih

end VetorDistancia

namespace VetorDistancia

/-! Lemmas about a single _preencher_enlaces write. -/

theorem preencher1_length (r : List roteador) (src : Nat) (dst c : Int) :
    (_preencher_enlaces r src dst c).length = r.length :=
  List.length_set _ _ _

theorem preencher1_outro (r : List roteador) (src : Nat) (dst c : Int) (i : Nat)
    (h : i ≠ src) : leR (_preencher_enlaces r src dst c) i = leR r i :=
  leR_escreveR_ne _ _ _ _ h

theorem preencher1_idx (r : List roteador) (src : Nat) (dst c : Int) (i : Nat) :
    (leR (_preencher_enlaces r src dst c) i).idx = (leR r i).idx := by
  simp only [_preencher_enlaces]
  rcases leR_escreveR_cases2 r src i
      { leR r src with
        rotas := escreveRota (leR r src).rotas dst
          { destino := dst
            caminho := if c = INFINITO then -1 else dst
            custo := c } } with hc | ⟨hid, hc⟩
  · rw [hc]
  · rw [hc, hid]

theorem preencher1_entrada (r : List roteador) (src : Nat) (dst c : Int) (i : Nat) :
    (leR (_preencher_enlaces r src dst c) i).entrada = (leR r i).entrada := by
  simp only [_preencher_enlaces]
  rcases leR_escreveR_cases2 r src i
      { leR r src with
        rotas := escreveRota (leR r src).rotas dst
          { destino := dst
            caminho := if c = INFINITO then -1 else dst
            custo := c } } with hc | ⟨hid, hc⟩
  · rw [hc]
  · rw [hc, hid]

theorem preencher1_rotas_length (r : List roteador) (src : Nat) (dst c : Int) (i : Nat) :
    (leR (_preencher_enlaces r src dst c) i).rotas.length = (leR r i).rotas.length := by
  simp only [_preencher_enlaces]
  rcases leR_escreveR_cases2 r src i
      { leR r src with
        rotas := escreveRota (leR r src).rotas dst
          { destino := dst
            caminho := if c = INFINITO then -1 else dst
            custo := c } } with hc | ⟨hid, hc⟩
  · rw [hc]
  · rw [hc, hid]
    exact length_escreveRota _ _ _

theorem preencher1_leRota (r : List roteador) (src : Nat) (dst c : Int) (i : Nat) (d : Int)
    (h : i ≠ src ∨ d ≠ dst) :
    leRota (leR (_preencher_enlaces r src dst c) i).rotas d =
      leRota (leR r i).rotas d := by
  simp only [_preencher_enlaces]
  rcases leR_escreveR_cases2 r src i
      { leR r src with
        rotas := escreveRota (leR r src).rotas dst
          { destino := dst
            caminho := if c = INFINITO then -1 else dst
            custo := c } } with hc | ⟨hid, hc⟩
  · rw [hc]
  · rw [hc, hid]
    rcases h with h | h
    · exact absurd hid h
    · exact leRota_escreveRota_ne _ _ _ _ h

theorem preencher1_escreve (r : List roteador) (src : Nat) (dst c : Int)
    (hsrc : src < r.length) (h0 : 0 ≤ dst) (hlen : dst.toNat < (leR r src).rotas.length) :
    leRota (leR (_preencher_enlaces r src dst c) src).rotas dst =
      { destino := dst
        caminho := if c = INFINITO then -1 else dst
        custo := c } := by
  simp only [_preencher_enlaces]
  rw [leR_escreveR_self _ _ _ hsrc]
  exact leRota_escreveRota_self _ _ _ h0 hlen

theorem preencher1_TabelaOk (r : List roteador) (src : Nat) (dst c : Int)
    (hc5 : c ≤ INFINITO)
    (h : ∀ i < N_ROTEADORES, TabelaOk (leR r i)) :
    ∀ i < N_ROTEADORES, TabelaOk (leR (_preencher_enlaces r src dst c) i) := by
  intro i hi d h0 h6
  simp only [_preencher_enlaces]
  rcases leR_escreveR_cases2 r src i
      { leR r src with
        rotas := escreveRota (leR r src).rotas dst
          { destino := dst
            caminho := if c = INFINITO then -1 else dst
            custo := c } } with hc | ⟨hid, hc⟩
  · rw [hc]
    exact h i hi d h0 h6
  · rw [hc]
    show (leRota (escreveRota (leR r src).rotas dst _) d).destino = d ∧ _
    rcases leRota_escreveRota_cases (leR r src).rotas dst d
        { destino := dst
          caminho := if c = INFINITO then -1 else dst
          custo := c } with hc2 | ⟨hd2, hc2⟩
    · rw [hc2]
      exact h src (hid ▸ hi) d h0 h6
    · rw [hc2, hd2]
      refine ⟨rfl, hc5, ?_⟩
      by_cases hce : c = INFINITO
      · simp [hce]
      · simp only [if_neg hce]
        constructor
        · intro hcu
          exact absurd hcu hce
        · intro hca
          rw [← hd2] at hca
          omega

theorem preencher1_TetoOk (r : List roteador) (src : Nat) (dst c : Int)
    (hc5 : c ≤ INFINITO)
    (h : ∀ i < N_ROTEADORES, TetoOk (leR r i)) :
    ∀ i < N_ROTEADORES, TetoOk (leR (_preencher_enlaces r src dst c) i) := by
  intro i hi d h0 h6
  simp only [_preencher_enlaces]
  rcases leR_escreveR_cases2 r src i
      { leR r src with
        rotas := escreveRota (leR r src).rotas dst
          { destino := dst
            caminho := if c = INFINITO then -1 else dst
            custo := c } } with hc | ⟨hid, hc⟩
  · rw [hc]
    exact h i hi d h0 h6
  · rw [hc]
    show (leRota (escreveRota (leR r src).rotas dst _) d).custo ≤ INFINITO
    rcases leRota_escreveRota_cases (leR r src).rotas dst d
        { destino := dst
          caminho := if c = INFINITO then -1 else dst
          custo := c } with hc2 | ⟨hd2, hc2⟩
    · rw [hc2]
      exact h src (hid ▸ hi) d h0 h6
    · rw [hc2]
      exact hc5

end VetorDistancia

namespace VetorDistancia

/-! Lemmas about one row of the infinity pass. -/

theorem linha_outro (src : Nat) (l : List Nat) :
    ∀ (r : List roteador) (i : Nat), i ≠ src →
      leR (preenche_linha src l r) i = leR r i := by
  induction l with
  | nil => intro r i _; rfl
  | cons j js ih =>
      intro r i hne
      simp only [preenche_linha]
      rw [ih _ _ hne]
      exact preencher1_outro _ _ _ _ _ hne

theorem linha_length (src : Nat) (l : List Nat) :
    ∀ r : List roteador, (preenche_linha src l r).length = r.length := by
  induction l with
  | nil => intro r; rfl
  | cons j js ih =>
      intro r
      simp only [preenche_linha]
      rw [ih]
      exact preencher1_length _ _ _ _

theorem linha_idx (src : Nat) (l : List Nat) :
    ∀ (r : List roteador) (i : Nat),
      (leR (preenche_linha src l r) i).idx = (leR r i).idx := by
  induction l with
  | nil => intro r i; rfl
  | cons j js ih =>
      intro r i
      simp only [preenche_linha]
      rw [ih]
      exact preencher1_idx _ _ _ _ _

theorem linha_entrada (src : Nat) (l : List Nat) :
    ∀ (r : List roteador) (i : Nat),
      (leR (preenche_linha src l r) i).entrada = (leR r i).entrada := by
  induction l with
  | nil => intro r i; rfl
  | cons j js ih =>
      intro r i
      simp only [preenche_linha]
      rw [ih]
      exact preencher1_entrada _ _ _ _ _

theorem linha_rotas_length (src : Nat) (l : List Nat) :
    ∀ (r : List roteador) (i : Nat),
      (leR (preenche_linha src l r) i).rotas.length = (leR r i).rotas.length := by
  induction l with
  | nil => intro r i; rfl
  | cons j js ih =>
      intro r i
      simp only [preenche_linha]
      rw [ih]
      exact preencher1_rotas_length _ _ _ _ _

theorem linha_preserva (src : Nat) (l : List Nat) :
    ∀ (r : List roteador) (i : Nat) (d : Int),
      (i ≠ src ∨ ∀ j ∈ l, (j : Int) ≠ d) →
      leRota (leR (preenche_linha src l r) i).rotas d = leRota (leR r i).rotas d := by
  induction l with
  | nil => intro r i d _; rfl
  | cons j js ih =>
      intro r i d h
      simp only [preenche_linha]
      rcases h with h | h
      · rw [ih _ _ _ (Or.inl h)]
        exact preencher1_leRota _ _ _ _ _ _ (Or.inl h)
      · rw [ih _ _ _ (Or.inr fun j2 hj2 => h j2 (List.mem_cons_of_mem _ hj2))]
        exact preencher1_leRota _ _ _ _ _ _ (Or.inr (Ne.symm (h j (List.mem_cons_self j js))))

theorem linha_estabelece (src : Nat) (l : List Nat) (hl : l.Nodup) :
    ∀ (r : List roteador) (j : Nat), j ∈ l → src < r.length →
      j < (leR r src).rotas.length →
      leRota (leR (preenche_linha src l r) src).rotas (j : Int) =
        { destino := (j : Int), caminho := -1, custo := INFINITO } := by
  induction l with
  | nil => intro r j hj _ _; exact absurd hj (List.not_mem_nil _)
  | cons j0 js ih =>
      intro r j hj hsrc hlen
      rcases List.nodup_cons.mp hl with ⟨hnm, hnd⟩
      simp only [preenche_linha]
      by_cases hje : j = j0
      · subst hje
        rw [linha_preserva src js _ src (j : Int)
          (Or.inr fun j2 hj2 => by
            intro hcast
            apply hnm
            have : j2 = j := by exact_mod_cast hcast
            rw [← this]
            exact hj2)]
        rw [preencher1_escreve r src (j : Int) INFINITO hsrc (Int.natCast_nonneg j)
          (by simpa using hlen)]
        norm_num
      · have hjs : j ∈ js := by
          rcases List.mem_cons.mp hj with h | h
          · exact absurd h hje
          · exact h
        apply ih hnd
        · exact hjs
        · rw [preencher1_length]
          exact hsrc
        · rw [preencher1_rotas_length]
          exact hlen

/-! Lemmas about the whole infinity pass. -/

theorem infinito_outro (l : List Nat) :
    ∀ (r : List roteador) (i : Nat), i ∉ l →
      leR (preenche_infinito l r) i = leR r i := by
  induction l with
  | nil => intro r i _; rfl
  | cons i0 il ih =>
      intro r i hni
      have hne : i ≠ i0 := fun he => hni (he ▸ List.mem_cons_self i il)
      have hnl : i ∉ il := fun he => hni (List.mem_cons_of_mem _ he)
      simp only [preenche_infinito]
      rw [ih _ _ hnl, linha_outro _ _ _ _ hne]
      exact leR_escreveR_ne _ _ _ _ hne

theorem infinito_length (l : List Nat) :
    ∀ r : List roteador, (preenche_infinito l r).length = r.length := by
  induction l with
  | nil => intro r; rfl
  | cons i0 il ih =>
      intro r
      simp only [preenche_infinito]
      rw [ih, linha_length]
      exact List.length_set _ _ _

theorem infinito_estabelece (l : List Nat) (hl : l.Nodup) :
    ∀ (r : List roteador) (i : Nat), i ∈ l → i < r.length →
      (leR (preenche_infinito l r) i).idx = 0 ∧
      (leR (preenche_infinito l r) i).entrada = (leR r i).entrada ∧
      (leR (preenche_infinito l r) i).rotas.length = (leR r i).rotas.length ∧
      (∀ j : Nat, j ∈ List.range N_ROTEADORES → j < (leR r i).rotas.length →
        leRota (leR (preenche_infinito l r) i).rotas (j : Int) =
          { destino := (j : Int), caminho := -1, custo := INFINITO }) := by
  induction l with
  | nil => intro r i hi _; exact absurd hi (List.not_mem_nil _)
  | cons i0 il ih =>
      intro r i hi hlen
      rcases List.nodup_cons.mp hl with ⟨hnm, hnd⟩
      by_cases hie : i = i0
      · subst hie
        have hnl : i ∉ il := hnm
        simp only [preenche_infinito]
        rw [infinito_outro il _ i hnl]
        have hself : leR (escreveR r i { leR r i with idx := 0 }) i =
            { leR r i with idx := 0 } := leR_escreveR_self _ _ _ hlen
        refine ⟨?_, ?_, ?_, ?_⟩
        · rw [linha_idx, hself]
        · rw [linha_entrada, hself]
        · rw [linha_rotas_length, hself]
        · intro j hj hjlen
          rw [linha_estabelece i (List.range N_ROTEADORES) (List.nodup_range _)
            _ j hj (by rw [length_escreveR]; exact hlen) (by rw [hself]; exact hjlen)]
      · have hil : i ∈ il := by
          rcases List.mem_cons.mp hi with h | h
          · exact absurd h hie
          · exact h
        simp only [preenche_infinito]
        have hstep : ∀ i2, i2 = i →
            leR (preenche_linha i0 (List.range N_ROTEADORES)
              (escreveR r i0 { leR r i0 with idx := 0 })) i2 = leR r i2 := by
          intro i2 he
          subst he
          rw [linha_outro _ _ _ _ (fun hx => hie hx)]
          exact leR_escreveR_ne _ _ _ _ (fun hx => hie hx)
        have hres := ih hnd
          (preenche_linha i0 (List.range N_ROTEADORES)
            (escreveR r i0 { leR r i0 with idx := 0 })) i hil
          (by rw [linha_length, length_escreveR]; exact hlen)
        rw [hstep i rfl] at hres
        exact hres

end VetorDistancia

namespace VetorDistancia

/-! Lemmas about the interactive cost pass. -/

theorem custos_length (ins : Nat → Int) :
    ∀ (l : List (Nat × Nat)) (r : List roteador) (pos : Nat) (auto : Bool),
      (preenche_custos ins l r pos auto).length = r.length := by
  intro l
  induction l with
  | nil => intro r pos auto; rfl
  | cons p rest ih =>
      obtain ⟨pi, pj⟩ := p
      intro r pos auto
      simp only [preenche_custos]
      split
      · split
        · rw [ih, preencher1_length]
        · split
          · rw [ih, preencher1_length]
          · rw [ih, preencher1_length]
      · rw [ih]

theorem custos_idx (ins : Nat → Int) :
    ∀ (l : List (Nat × Nat)) (r : List roteador) (pos : Nat) (auto : Bool) (i : Nat),
      (leR (preenche_custos ins l r pos auto) i).idx = (leR r i).idx := by
  intro l
  induction l with
  | nil => intro r pos auto i; rfl
  | cons p rest ih =>
      obtain ⟨pi, pj⟩ := p
      intro r pos auto i
      simp only [preenche_custos]
      split
      · split
        · rw [ih, preencher1_idx]
        · split
          · rw [ih, preencher1_idx]
          · rw [ih, preencher1_idx]
      · rw [ih]

theorem custos_entrada (ins : Nat → Int) :
    ∀ (l : List (Nat × Nat)) (r : List roteador) (pos : Nat) (auto : Bool) (i : Nat),
      (leR (preenche_custos ins l r pos auto) i).entrada = (leR r i).entrada := by
  intro l
  induction l with
  | nil => intro r pos auto i; rfl
  | cons p rest ih =>
      obtain ⟨pi, pj⟩ := p
      intro r pos auto i
      simp only [preenche_custos]
      split
      · split
        · rw [ih, preencher1_entrada]
        · split
          · rw [ih, preencher1_entrada]
          · rw [ih, preencher1_entrada]
      · rw [ih]

theorem custos_rotas_length (ins : Nat → Int) :
    ∀ (l : List (Nat × Nat)) (r : List roteador) (pos : Nat) (auto : Bool) (i : Nat),
      (leR (preenche_custos ins l r pos auto) i).rotas.length = (leR r i).rotas.length := by
  intro l
  induction l with
  | nil => intro r pos auto i; rfl
  | cons p rest ih =>
      obtain ⟨pi, pj⟩ := p
      intro r pos auto i
      simp only [preenche_custos]
      split
      · split
        · rw [ih, preencher1_rotas_length]
        · split
          · rw [ih, preencher1_rotas_length]
          · rw [ih, preencher1_rotas_length]
      · rw [ih]

theorem custos_preserva (ins : Nat → Int) (i : Nat) (d : Int) :
    ∀ l : List (Nat × Nat),
      (∀ p ∈ l, p.1 ≠ i ∨ conexoes_enlaces p.1 p.2 = -1 ∨ conexoes_enlaces p.1 p.2 ≠ d) →
      ∀ (r : List roteador) (pos : Nat) (auto : Bool),
        leRota (leR (preenche_custos ins l r pos auto) i).rotas d =
          leRota (leR r i).rotas d := by
  intro l
  induction l with
  | nil => intro _ r pos auto; rfl
  | cons p rest ih =>
      obtain ⟨pi, pj⟩ := p
      intro hcond r pos auto
      have hhead := hcond (pi, pj) (List.mem_cons_self _ _)
      have hrest : ∀ p ∈ rest,
          p.1 ≠ i ∨ conexoes_enlaces p.1 p.2 = -1 ∨ conexoes_enlaces p.1 p.2 ≠ d :=
        fun p hp => hcond p (List.mem_cons_of_mem _ hp)
      simp only [preenche_custos]
      split
      · rename_i hlink
        have hmiss : i ≠ pi ∨ d ≠ conexoes_enlaces pi pj := by
          rcases hhead with h | h | h
          · exact Or.inl (Ne.symm h)
          · exact absurd h hlink
          · exact Or.inr (Ne.symm h)
        split
        · rw [ih hrest, preencher1_leRota _ _ _ _ _ _ hmiss]
        · split
          · rw [ih hrest, preencher1_leRota _ _ _ _ _ _ hmiss]
          · rw [ih hrest, preencher1_leRota _ _ _ _ _ _ hmiss]
      · rw [ih hrest]

theorem custos_TabelaOk (ins : Nat → Int) (hins : ∀ k, ins k ≤ INFINITO) :
    ∀ (l : List (Nat × Nat)) (r : List roteador) (pos : Nat) (auto : Bool),
      (∀ i < N_ROTEADORES, TabelaOk (leR r i)) →
      ∀ i < N_ROTEADORES, TabelaOk (leR (preenche_custos ins l r pos auto) i) := by
  intro l
  induction l with
  | nil => intro r pos auto h; exact h
  | cons p rest ih =>
      obtain ⟨pi, pj⟩ := p
      intro r pos auto h
      simp only [preenche_custos]
      split
      · split
        · exact ih _ _ _ (preencher1_TabelaOk _ _ _ _ (by norm_num [DISTANCIA_AUTOMATICA, INFINITO]) h)
        · split
          · exact ih _ _ _ (preencher1_TabelaOk _ _ _ _ (by norm_num [DISTANCIA_AUTOMATICA, INFINITO]) h)
          · exact ih _ _ _ (preencher1_TabelaOk _ _ _ _ (hins pos) h)
      · exact ih _ _ _ h

theorem custos_TetoOk (ins : Nat → Int) (hins : ∀ k, ins k ≤ INFINITO) :
    ∀ (l : List (Nat × Nat)) (r : List roteador) (pos : Nat) (auto : Bool),
      (∀ i < N_ROTEADORES, TetoOk (leR r i)) →
      ∀ i < N_ROTEADORES, TetoOk (leR (preenche_custos ins l r pos auto) i) := by
  intro l
  induction l with
  | nil => intro r pos auto h; exact h
  | cons p rest ih =>
      obtain ⟨pi, pj⟩ := p
      intro r pos auto h
      simp only [preenche_custos]
      split
      · split
        · exact ih _ _ _ (preencher1_TetoOk _ _ _ _ (by norm_num [DISTANCIA_AUTOMATICA, INFINITO]) h)
        · split
          · exact ih _ _ _ (preencher1_TetoOk _ _ _ _ (by norm_num [DISTANCIA_AUTOMATICA, INFINITO]) h)
          · exact ih _ _ _ (preencher1_TetoOk _ _ _ _ (hins pos) h)
      · exact ih _ _ _ h

end VetorDistancia

namespace VetorDistancia

/-! Direct-route shape of entries written with a finite cost. -/

theorem preencher1_Good (r : List roteador) (src : Nat) (dst c : Int)
    (hc : c < INFINITO) (i : Nat) (d : Int)
    (hG : (leRota (leR r i).rotas d).destino = d ∧
      (leRota (leR r i).rotas d).caminho = d ∧
      (leRota (leR r i).rotas d).custo < INFINITO) :
    (leRota (leR (_preencher_enlaces r src dst c) i).rotas d).destino = d ∧
    (leRota (leR (_preencher_enlaces r src dst c) i).rotas d).caminho = d ∧
    (leRota (leR (_preencher_enlaces r src dst c) i).rotas d).custo < INFINITO := by
  simp only [_preencher_enlaces]
  rcases leR_escreveR_cases2 r src i
      { leR r src with
        rotas := escreveRota (leR r src).rotas dst
          { destino := dst
            caminho := if c = INFINITO then -1 else dst
            custo := c } } with hcs | ⟨hid, hcs⟩
  · rw [hcs]
    exact hG
  · rw [hcs]
    subst hid
    show (leRota (escreveRota (leR r i).rotas dst _) d).destino = d ∧ _
    rcases leRota_escreveRota_cases (leR r i).rotas dst d
        { destino := dst
          caminho := if c = INFINITO then -1 else dst
          custo := c } with hc2 | ⟨hd2, hc2⟩
    · rw [hc2]
      exact hG
    · rw [hc2, hd2]
      refine ⟨rfl, ?_, hc⟩
      rw [if_neg (by omega)]

theorem custos_Good (ins : Nat → Int) (hins : ∀ k, ins k < INFINITO) (i : Nat) (d : Int) :
    ∀ (l : List (Nat × Nat)) (r : List roteador) (pos : Nat) (auto : Bool),
      ((leRota (leR r i).rotas d).destino = d ∧
        (leRota (leR r i).rotas d).caminho = d ∧
        (leRota (leR r i).rotas d).custo < INFINITO) →
      (leRota (leR (preenche_custos ins l r pos auto) i).rotas d).destino = d ∧
      (leRota (leR (preenche_custos ins l r pos auto) i).rotas d).caminho = d ∧
      (leRota (leR (preenche_custos ins l r pos auto) i).rotas d).custo < INFINITO := by
  intro l
  induction l with
  | nil => intro r pos auto h; exact h
  | cons p rest ih =>
      obtain ⟨pi, pj⟩ := p
      intro r pos auto h
      simp only [preenche_custos]
      split
      · split
        · exact ih _ _ _ (preencher1_Good _ _ _ _ (by norm_num [DISTANCIA_AUTOMATICA, INFINITO]) _ _ h)
        · split
          · exact ih _ _ _ (preencher1_Good _ _ _ _ (by norm_num [DISTANCIA_AUTOMATICA, INFINITO]) _ _ h)
          · exact ih _ _ _ (preencher1_Good _ _ _ _ (hins pos) _ _ h)
      · exact ih _ _ _ h

theorem custos_estabelece (ins : Nat → Int) (hins : ∀ k, ins k < INFINITO) :
    ∀ (l : List (Nat × Nat)) (r : List roteador) (pos : Nat) (auto : Bool) (i j : Nat),
      (i, j) ∈ l → conexoes_enlaces i j ≠ -1 →
      i < r.length → (conexoes_enlaces i j).toNat < (leR r i).rotas.length →
      (leRota (leR (preenche_custos ins l r pos auto) i).rotas
        (conexoes_enlaces i j)).destino = conexoes_enlaces i j ∧
      (leRota (leR (preenche_custos ins l r pos auto) i).rotas
        (conexoes_enlaces i j)).caminho = conexoes_enlaces i j ∧
      (leRota (leR (preenche_custos ins l r pos auto) i).rotas
        (conexoes_enlaces i j)).custo < INFINITO := by
  intro l
  induction l with
  | nil => intro r pos auto i j hm _ _ _; exact absurd hm (List.not_mem_nil _)
  | cons p rest ih =>
      obtain ⟨pi, pj⟩ := p
      intro r pos auto i j hm hlink hil hrl
      have h0dst : 0 ≤ conexoes_enlaces i j := by
        have := (conexoes_bounds i j).1
        omega
      by_cases hpe : pi = i ∧ pj = j
      · obtain ⟨hpe1, hpe2⟩ := hpe
        subst hpe1
        subst hpe2
        simp only [preenche_custos]
        rw [if_pos hlink]
        have hwrite : ∀ c : Int, c < INFINITO →
            (leRota (leR (_preencher_enlaces r pi (conexoes_enlaces pi pj) c) pi).rotas
              (conexoes_enlaces pi pj)).destino = conexoes_enlaces pi pj ∧
            (leRota (leR (_preencher_enlaces r pi (conexoes_enlaces pi pj) c) pi).rotas
              (conexoes_enlaces pi pj)).caminho = conexoes_enlaces pi pj ∧
            (leRota (leR (_preencher_enlaces r pi (conexoes_enlaces pi pj) c) pi).rotas
              (conexoes_enlaces pi pj)).custo < INFINITO := by
          intro c hc
          rw [preencher1_escreve r pi (conexoes_enlaces pi pj) c hil h0dst hrl]
          refine ⟨rfl, ?_, hc⟩
          rw [if_neg (by omega)]
        split
        · exact custos_Good ins hins pi _ rest _ _ _
            (hwrite DISTANCIA_AUTOMATICA (by norm_num [DISTANCIA_AUTOMATICA, INFINITO]))
        · split
          · exact custos_Good ins hins pi _ rest _ _ _
              (hwrite DISTANCIA_AUTOMATICA (by norm_num [DISTANCIA_AUTOMATICA, INFINITO]))
          · exact custos_Good ins hins pi _ rest _ _ _ (hwrite (ins pos) (hins pos))
      · have hmr : (i, j) ∈ rest := by
          rcases List.mem_cons.mp hm with h | h
          · exfalso
            apply hpe
            have h2 := h.symm
            exact ⟨congrArg Prod.fst h2, congrArg Prod.snd h2⟩
          · exact h
        simp only [preenche_custos]
        split
        · split
          · exact ih _ _ _ _ _ hmr hlink (by rw [preencher1_length]; exact hil)
              (by rw [preencher1_rotas_length]; exact hrl)
          · split
            · exact ih _ _ _ _ _ hmr hlink (by rw [preencher1_length]; exact hil)
                (by rw [preencher1_rotas_length]; exact hrl)
            · exact ih _ _ _ _ _ hmr hlink (by rw [preencher1_length]; exact hil)
                (by rw [preencher1_rotas_length]; exact hrl)
        · exact ih _ _ _ _ _ hmr hlink hil hrl

/-! Lemmas about the initial countdown assignment. -/

theorem atribui_campos (iv : Nat → Nat) (l : List Nat) :
    ∀ (r : List roteador) (i : Nat),
      (leR (atribui_intervalos iv l r) i).rotas = (leR r i).rotas ∧
      (leR (atribui_intervalos iv l r) i).idx = (leR r i).idx ∧
      (leR (atribui_intervalos iv l r) i).entrada = (leR r i).entrada := by
  induction l with
  | nil => intro r i; exact ⟨rfl, rfl, rfl⟩
  | cons j rest ih =>
      intro r i
      simp only [atribui_intervalos]
      rcases ih (escreveR r j { leR r j with intervalo := iv j }) i with ⟨h1, h2, h3⟩
      rw [h1, h2, h3]
      rcases leR_escreveR_cases2 r j i { leR r j with intervalo := iv j }
        with hc | ⟨hid, hc⟩
      · rw [hc]
        exact ⟨rfl, rfl, rfl⟩
      · rw [hc]
        subst hid
        exact ⟨rfl, rfl, rfl⟩

theorem atribui_length (iv : Nat → Nat) (l : List Nat) :
    ∀ r : List roteador, (atribui_intervalos iv l r).length = r.length := by
  induction l with
  | nil => intro r; rfl
  | cons j rest ih =>
      intro r
      simp only [atribui_intervalos]
      rw [ih]
      exact List.length_set _ _ _

end VetorDistancia

namespace VetorDistancia

/-! Facts about the router array at the start of the main loop. -/

theorem init_estrutura (g : List roteador) (ins : Nat → Int) (iv : Nat → Nat)
    (hBF : BoaForma g) :
    ∀ i < N_ROTEADORES,
      (leR (initRouters g ins iv) i).rotas.length = N_ROTEADORES ∧
      (leR (initRouters g ins iv) i).entrada.length = PKT_BUFFER ∧
      (leR (initRouters g ins iv) i).idx = 0 ∧
      CaixaOk (leR (initRouters g ins iv) i) := by
  intro i hi
  obtain ⟨hlen, hshape⟩ := hBF
  have hinf := infinito_estabelece (List.range N_ROTEADORES) (List.nodup_range _)
    g i (List.mem_range.mpr hi) (by omega)
  obtain ⟨hidx0, hent, hrl, _⟩ := hinf
  rcases atribui_campos iv (List.range N_ROTEADORES) (preencher_enlaces g ins) i
    with ⟨ha1, ha2, ha3⟩
  have hidx : (leR (initRouters g ins iv) i).idx = 0 := by
    rw [show (leR (initRouters g ins iv) i).idx =
      (leR (preencher_enlaces g ins) i).idx from ha2]
    show (leR (preenche_custos ins pares
      (preenche_infinito (List.range N_ROTEADORES) g) 0 false) i).idx = 0
    rw [custos_idx, hidx0]
  refine ⟨?_, ?_, hidx, ?_⟩
  · rw [show (leR (initRouters g ins iv) i).rotas =
      (leR (preencher_enlaces g ins) i).rotas from ha1]
    show (leR (preenche_custos ins pares
      (preenche_infinito (List.range N_ROTEADORES) g) 0 false) i).rotas.length = _
    rw [custos_rotas_length, hrl]
    exact (hshape i hi).1
  · rw [show (leR (initRouters g ins iv) i).entrada =
      (leR (preencher_enlaces g ins) i).entrada from ha3]
    show (leR (preenche_custos ins pares
      (preenche_infinito (List.range N_ROTEADORES) g) 0 false) i).entrada.length = _
    rw [custos_entrada, hent]
    exact (hshape i hi).2
  · intro p hp
    rw [hidx] at hp
    omega

theorem init_TabelaOk (g : List roteador) (ins : Nat → Int) (iv : Nat → Nat)
    (hBF : BoaForma g) (hins : ∀ k, ins k ≤ INFINITO) :
    EstadoTabelaOk (initRouters g ins iv) := by
  intro i hi
  obtain ⟨hlen, hshape⟩ := hBF
  refine ⟨?_, (init_estrutura g ins iv ⟨hlen, hshape⟩ i hi).2.2.2⟩
  have hTab0 : ∀ i2 < N_ROTEADORES,
      TabelaOk (leR (preenche_infinito (List.range N_ROTEADORES) g) i2) := by
    intro i2 hi2 d h0 h6
    have hinf := infinito_estabelece (List.range N_ROTEADORES) (List.nodup_range _)
      g i2 (List.mem_range.mpr hi2) (by omega)
    have hent := hinf.2.2.2 d.toNat (List.mem_range.mpr (by omega))
      (by rw [(hshape i2 hi2).1]; omega)
    rw [Int.toNat_of_nonneg h0] at hent
    rw [hent]
    refine ⟨rfl, by norm_num [INFINITO], ?_⟩
    constructor
    · intro _; rfl
    · intro _; rfl
  have hTab1 := custos_TabelaOk ins hins pares
    (preenche_infinito (List.range N_ROTEADORES) g) 0 false hTab0
  rcases atribui_campos iv (List.range N_ROTEADORES) (preencher_enlaces g ins) i
    with ⟨ha1, _, _⟩
  exact TabelaOk_rotas_eq _ _ ha1 (hTab1 i hi)

theorem init_diagonal (g : List roteador) (ins : Nat → Int) (iv : Nat → Nat)
    (hBF : BoaForma g) :
    ∀ i < N_ROTEADORES,
      leRota (leR (initRouters g ins iv) i).rotas (i : Int) =
        { destino := (i : Int), caminho := -1, custo := INFINITO } := by
  intro i hi
  obtain ⟨hlen, hshape⟩ := hBF
  have hinf := infinito_estabelece (List.range N_ROTEADORES) (List.nodup_range _)
    g i (List.mem_range.mpr hi) (by omega)
  have hent := hinf.2.2.2 i (List.mem_range.mpr hi) (by rw [(hshape i hi).1]; omega)
  have hdiag : ∀ p ∈ pares,
      conexoes_enlaces p.1 p.2 = -1 ∨ conexoes_enlaces p.1 p.2 ≠ (p.1 : Int) := by
    decide
  have hpres := custos_preserva ins i (i : Int) pares
    (by
      intro p hp
      rcases hdiag p hp with h | h
      · exact Or.inr (Or.inl h)
      · by_cases hpi : p.1 = i
        · exact Or.inr (Or.inr (by rw [← hpi]; exact h))
        · exact Or.inl hpi)
    (preenche_infinito (List.range N_ROTEADORES) g) 0 false
  rcases atribui_campos iv (List.range N_ROTEADORES) (preencher_enlaces g ins) i
    with ⟨ha1, _, _⟩
  rw [show (leR (initRouters g ins iv) i).rotas =
    (leR (preencher_enlaces g ins) i).rotas from ha1]
  show leRota (leR (preenche_custos ins pares
    (preenche_infinito (List.range N_ROTEADORES) g) 0 false) i).rotas (i : Int) = _
  rw [hpres, hent]

theorem init_direto (g : List roteador) (ins : Nat → Int) (iv : Nat → Nat)
    (hBF : BoaForma g) (hins : ∀ k, ins k < INFINITO) :
    ∀ i j : Nat, i < N_ROTEADORES → j < N_ROTEADORES → conexoes_enlaces i j ≠ -1 →
      (leRota (leR (initRouters g ins iv) i).rotas (conexoes_enlaces i j)).destino =
        conexoes_enlaces i j ∧
      (leRota (leR (initRouters g ins iv) i).rotas (conexoes_enlaces i j)).caminho =
        conexoes_enlaces i j ∧
      (leRota (leR (initRouters g ins iv) i).rotas (conexoes_enlaces i j)).custo <
        INFINITO := by
  intro i j hi hj hlink
  obtain ⟨hlen, hshape⟩ := hBF
  have hmem : (i, j) ∈ pares := by
    have h2 : ∀ i2 < N_ROTEADORES, ∀ j2 < N_ROTEADORES, (i2, j2) ∈ pares := by decide
    exact h2 i hi j hj
  have hinf := infinito_estabelece (List.range N_ROTEADORES) (List.nodup_range _)
    g i (List.mem_range.mpr hi) (by omega)
  have hbnd := conexoes_bounds i j
  have hest := custos_estabelece ins hins pares
    (preenche_infinito (List.range N_ROTEADORES) g) 0 false i j hmem hlink
    (by rw [infinito_length]; omega)
    (by
      rw [hinf.2.2.1, (hshape i hi).1]
      show (conexoes_enlaces i j).toNat < 6
      omega)
  rcases atribui_campos iv (List.range N_ROTEADORES) (preencher_enlaces g ins) i
    with ⟨ha1, _, _⟩
  rw [show (leR (initRouters g ins iv) i).rotas =
    (leR (preencher_enlaces g ins) i).rotas from ha1]
  show (leRota (leR (preenche_custos ins pares
      (preenche_infinito (List.range N_ROTEADORES) g) 0 false) i).rotas
      (conexoes_enlaces i j)).destino = conexoes_enlaces i j ∧ _
  exact hest

theorem matriz_de_lixo_BoaForma (a : Nat → Nat) (f : Nat → Nat → rota_t) (b : Nat → Nat)
    (e : Nat → Nat → pacote_t) : BoaForma (matriz_de_lixo a f b e) := by
  constructor
  · simp [matriz_de_lixo]
  · intro i hi
    have : leR (matriz_de_lixo a f b e) i =
        ⟨a i, (List.range N_ROTEADORES).map (f i), b i, (List.range PKT_BUFFER).map (e i)⟩ := by
      unfold matriz_de_lixo leR
      rw [List.getD_eq_getElem?_getD, List.getElem?_map]
      rw [List.getElem?_range (by simpa using hi)]
      rfl
    rw [this]
    constructor
    · simp
    · simp
end VetorDistancia

namespace VetorDistancia

/-! Refinement: the receive code computes exactly the relaxation of the
specification. -/

theorem relaxa_spec_rotas (rt : roteador) (pk : pacote_t) (k : Nat) :
    ((relaxa rt pk k).1).rotas =
      (specRelaxa rt.rotas pk.remetente (leRota pk.rotas (k : Int))).1 := by
  rcases relaxa_caracteriza rt pk k with ⟨h, heq⟩ | ⟨h, heq⟩ <;>
    rw [heq] <;> simp only [specRelaxa]
  · rw [if_neg h]
  · rw [if_pos h]

theorem relaxa_spec_delta (rt : roteador) (pk : pacote_t) (k : Nat) :
    (relaxa rt pk k).2 =
      (specRelaxa rt.rotas pk.remetente (leRota pk.rotas (k : Int))).2 := by
  rcases relaxa_caracteriza rt pk k with ⟨h, heq⟩ | ⟨h, heq⟩ <;>
    rw [heq] <;> simp only [specRelaxa]
  · rw [if_neg h]
  · rw [if_pos h]

theorem processa_spec (pk : pacote_t) :
    ∀ (l : List Nat) (rt : roteador) (n : Nat),
      (processa_laco pk l (rt, n)).1.rotas =
        (specRelaxaLista pk.remetente (l.map fun k => leRota pk.rotas (k : Int))
          (rt.rotas, n)).1 ∧
      (processa_laco pk l (rt, n)).2 =
        (specRelaxaLista pk.remetente (l.map fun k => leRota pk.rotas (k : Int))
          (rt.rotas, n)).2 := by
  intro l
  induction l with
  | nil => intro rt n; exact ⟨rfl, rfl⟩
  | cons k ks ih =>
      intro rt n
      simp only [processa_laco, List.map_cons, specRelaxaLista]
      rcases ih (relaxa rt pk k).1 (n + (relaxa rt pk k).2) with ⟨ih1, ih2⟩
      rw [ih1, ih2, relaxa_spec_rotas, relaxa_spec_delta]
      exact ⟨rfl, rfl⟩

theorem processa_pacote_spec (rt : roteador) (pk : pacote_t) :
    (processa_pacote rt pk).1.rotas =
      (specRelaxaLista pk.remetente (specRotasDe pk) (rt.rotas, 0)).1 ∧
    (processa_pacote rt pk).2 =
      (specRelaxaLista pk.remetente (specRotasDe pk) (rt.rotas, 0)).2 :=
  processa_spec pk (List.range N_ROTEADORES) rt 0

theorem recebe_spec :
    ∀ (fuel : Nat) (rt : roteador) (n : Nat), fuel = rt.idx →
      (recebe_laco fuel rt n).1.rotas =
        (specRecebe (specCaixaDeEntrada rt) (rt.rotas, n)).1 ∧
      (recebe_laco fuel rt n).2 =
        (specRecebe (specCaixaDeEntrada rt) (rt.rotas, n)).2 := by
  intro fuel
  induction fuel with
  | zero =>
      intro rt n hfuel
      have hcaixa : specCaixaDeEntrada rt = [] := by
        unfold specCaixaDeEntrada
        rw [← hfuel]
        rfl
      rw [hcaixa]
      exact ⟨rfl, rfl⟩
  | succ fuel ih =>
      intro rt n hfuel
      have hidx : rt.idx ≠ 0 := by omega
      have hm1 : rt.idx - 1 = fuel := by omega
      have hcaixa : specCaixaDeEntrada rt =
          lePacote rt.entrada fuel ::
            ((List.range fuel).reverse).map (lePacote rt.entrada) := by
        unfold specCaixaDeEntrada
        rw [← hfuel, List.range_succ, List.reverse_append]
        rfl
      simp only [recebe_laco]
      rw [if_neg hidx]
      rw [hm1]
      have hin := ih
        (processa_pacote ⟨rt.intervalo, rt.rotas, fuel, rt.entrada⟩
          (lePacote rt.entrada fuel)).1
        (n + (processa_pacote ⟨rt.intervalo, rt.rotas, fuel, rt.entrada⟩
          (lePacote rt.entrada fuel)).2)
        (by rw [processa_pacote_idx])
      rw [hin.1, hin.2]
      have hcaixa2 : specCaixaDeEntrada
          (processa_pacote ⟨rt.intervalo, rt.rotas, fuel, rt.entrada⟩
            (lePacote rt.entrada fuel)).1 =
          ((List.range fuel).reverse).map (lePacote rt.entrada) := by
        unfold specCaixaDeEntrada
        rw [processa_pacote_idx, processa_pacote_entrada]
      rw [hcaixa2, hcaixa]
      simp only [specRecebe]
      have hpr := processa_pacote_spec
        (⟨rt.intervalo, rt.rotas, fuel, rt.entrada⟩ : roteador)
        (lePacote rt.entrada fuel)
      rw [hpr.1, hpr.2]
      exact ⟨rfl, rfl⟩

/-! Lemmas about the convergence detector. -/

theorem ultimo_le (delta : Nat → Nat) : ∀ t, ultimo_passo_com_variacao delta t ≤ t := by
  intro t
  induction t with
  | zero => exact le_refl _
  | succ s ih =>
      show (if delta (s + 1) ≠ 0 then s + 1 else ultimo_passo_com_variacao delta s) ≤ s + 1
      split
      · exact le_refl _
      · omega

end VetorDistancia

namespace VetorDistancia

theorem parada_exata (delta : Nat → Nat) (t : Nat)
    (h : primeiro_passo_de_parada delta t) :
    t - ultimo_passo_com_variacao delta t = ESTADO_ESTATICO := by
  obtain ⟨hstop, hmin⟩ := h
  have hge : ESTADO_ESTATICO ≤ t - ultimo_passo_com_variacao delta t :=
    of_decide_eq_true hstop
  have hult := ultimo_le delta t
  have hE : ESTADO_ESTATICO = 10 := rfl
  by_contra hne
  have hgt : ESTADO_ESTATICO + 1 ≤ t - ultimo_passo_com_variacao delta t := by omega
  have ht0 : t ≠ 0 := by
    intro h0
    subst h0
    have hu0 : ultimo_passo_com_variacao delta 0 = 0 := rfl
    omega
  obtain ⟨s, hs⟩ : ∃ s, t = s + 1 := ⟨t - 1, by omega⟩
  subst hs
  have hu : ultimo_passo_com_variacao delta (s + 1) =
      if delta (s + 1) ≠ 0 then s + 1 else ultimo_passo_com_variacao delta s := rfl
  by_cases hdz : delta (s + 1) ≠ 0
  · rw [hu, if_pos hdz] at hgt
    omega
  · rw [hu, if_neg hdz] at hgt
    have hults := ultimo_le delta s
    have hsai : sai_do_laco delta s = true :=
      decide_eq_true (by
        show ESTADO_ESTATICO ≤ s - ultimo_passo_com_variacao delta s
        omega)
    have hfalse := hmin s (by omega)
    rw [hfalse] at hsai
    exact Bool.noConfusion hsai

end VetorDistancia

namespace VetorDistancia

/-! The claims. -/

set_option maxRecDepth 100000 in
/-- C1, counterexample: the claim says the self-destination entry keeps
cost INFINITO and next hop -1 for the entire run, but in the reachable
state cx1 (auto-filled costs 1, one step in which only router A sends)
router B's self entry has been relaxed to cost 2 with next hop A. -/
theorem C1_contraexemplo :
    Reachable cx1 ∧
    (leRota (leR cx1.roteadores 1).rotas (1 : Int)).custo = 2 ∧
    (leRota (leR cx1.roteadores 1).rotas (1 : Int)).custo ≠ INFINITO ∧
    (leRota (leR cx1.roteadores 1).rotas (1 : Int)).caminho ≠ -1 := by
  refine ⟨?_, by decide, by decide, by decide⟩
  refine ⟨fun _ => 0, fun _ _ => ⟨0, 0, 0⟩, fun _ => 0, fun _ _ => ⟨0, []⟩,
    insAuto, ivA, ?_, ?_⟩
  · intro i
    by_cases h : i = 0 <;> simp [ivA, h]
  · exact Reaches.next _ _ z0 (Reaches.refl _) (fun i => by simp [z0])

/-- C1, amended: the self-destination table entry is never assigned a
finite cost by initialization - after preencher_enlaces and the initial
countdown assignment it is exactly cost INFINITO with next hop -1 - but
the receive-phase relaxation does not skip the self destination, so the
entry does not stay infinite for the entire run (see the
counterexample). -/
theorem C1_teorema :
    ∀ (a : Nat → Nat) (f : Nat → Nat → rota_t) (b : Nat → Nat)
      (e : Nat → Nat → pacote_t) (ins : Nat → Int) (iv : Nat → Nat) (i : Nat),
      i < N_ROTEADORES →
      leRota (leR (initRouters (matriz_de_lixo a f b e) ins iv) i).rotas (i : Int) =
        { destino := (i : Int), caminho := -1, custo := INFINITO } :=
  fun a f b e ins iv i hi =>
    init_diagonal _ ins iv (matriz_de_lixo_BoaForma a f b e) i hi

/-- C1, witness: the amended theorem applied to the all-ones
configuration at router 2. -/
theorem C1_testemunha :
    leRota (leR (initRouters g0 insUns z0) 2).rotas (2 : Int) =
      { destino := (2 : Int), caminho := -1, custo := INFINITO } :=
  C1_teorema (fun _ => 0) (fun _ _ => ⟨0, 0, 0⟩) (fun _ => 0) (fun _ _ => ⟨0, []⟩)
    insUns z0 2 (by norm_num [N_ROTEADORES])

/-- C2: the receive operation is exactly the relaxation of the spec:
processing the mailbox in removal order, each advertised route is
relaxed by candidateCost = advertised cost plus the receiver's current
cost to the sender, updating cost and next hop exactly on strict
improvement and counting one delta; receive repeats until the mailbox is
empty and returns the total delta. -/
theorem C2_teorema :
    ∀ (r : List roteador) (dst : Nat), dst < r.length →
      (leR (recebe_pacote r dst).1 dst).rotas =
        (specRecebe (specCaixaDeEntrada (leR r dst)) ((leR r dst).rotas, 0)).1 ∧
      (recebe_pacote r dst).2 =
        (specRecebe (specCaixaDeEntrada (leR r dst)) ((leR r dst).rotas, 0)).2 ∧
      (leR (recebe_pacote r dst).1 dst).idx = 0 := by
  intro r dst hdst
  have hspec := recebe_spec (leR r dst).idx (leR r dst) 0 rfl
  refine ⟨?_, hspec.2, recebe_pacote_idx_zero r dst hdst⟩
  rw [recebe_pacote_proprio r dst hdst]
  exact hspec.1

set_option maxRecDepth 100000 in
/-- C2, witness: the refinement applied to the concrete array g0 at
router 0. -/
theorem C2_testemunha :
    (leR (recebe_pacote g0 0).1 0).rotas =
      (specRecebe (specCaixaDeEntrada (leR g0 0)) ((leR g0 0).rotas, 0)).1 ∧
    (recebe_pacote g0 0).2 =
      (specRecebe (specCaixaDeEntrada (leR g0 0)) ((leR g0 0).rotas, 0)).2 ∧
    (leR (recebe_pacote g0 0).1 0).idx = 0 :=
  C2_teorema g0 0 (by decide)

/-- C3, counterexample: with the all-zero delta stream the loop exits at
step 10, but the termination report prints passo - ESTADO_ESTATICO = 0,
not the step index 10 at which convergence was declared. -/
theorem C3_contraexemplo :
    primeiro_passo_de_parada d0 10 ∧ passo_reportado 10 ≠ 10 := by
  constructor
  · constructor
    · decide
    · decide
  · decide

/-- C3, amended: the driver exits the loop exactly when the gap between
the current step and the last step with a change reaches ESTADO_ESTATICO
(the first exiting step has gap exactly ESTADO_ESTATICO), and the
termination report prints the last step with a change, which is the
declaration step minus ESTADO_ESTATICO - not the declaration step
itself. -/
theorem C3_teorema :
    ∀ (delta : Nat → Nat) (t : Nat), primeiro_passo_de_parada delta t →
      t - ultimo_passo_com_variacao delta t = ESTADO_ESTATICO ∧
      passo_reportado t = ultimo_passo_com_variacao delta t := by
  intro delta t h
  have hex := parada_exata delta t h
  refine ⟨hex, ?_⟩
  have hult := ultimo_le delta t
  unfold passo_reportado
  omega

/-- C3, witness: the amended theorem applied to the stream with a single
change at step 0, which stops at step 10. -/
theorem C3_testemunha :
    primeiro_passo_de_parada d1 10 ∧
    (10 - ultimo_passo_com_variacao d1 10 = ESTADO_ESTATICO ∧
      passo_reportado 10 = ultimo_passo_com_variacao d1 10) :=
  ⟨⟨by decide, by decide⟩, C3_teorema d1 10 ⟨by decide, by decide⟩⟩

/-- C4: evaluation of the countdown reset at the failing input.  The
claim (and the comment at line 219 of the source) says the reset always
lies in the range 0..4, but when random() returns RAND_MAX the
expression (int)(((float)random()/(float)RAND_MAX)*5) - computed here in
exact arithmetic, and exact in floating point at this input - yields 5. -/
theorem C4_teorema :
    intervaloReset RAND_MAX = 5 ∧ ¬ intervaloReset RAND_MAX ≤ 4 := by
  constructor
  · rfl
  · decide

/-- C5, counterexample: the claim says Topology construction fails on a
non-positive cost, but preencher_enlaces has no failure path: entering
cost -3 for every link completes construction and installs the negative
cost as a live direct route with next hop the destination. -/
theorem C5_contraexemplo :
    (leRota (leR (preencher_enlaces g0 insNeg) 0).rotas (1 : Int)).custo = -3 ∧
    (leRota (leR (preencher_enlaces g0 insNeg) 0).rotas (1 : Int)).caminho = 1 := by
  constructor
  · decide
  · decide

/-- C5, amended: construction validates nothing - any entered cost,
including a negative one, is accepted and stored (cost 0 merely switches
to auto-fill with DISTANCIA_AUTOMATICA) - but the compiled-in adjacency
matrix itself is symmetric and free of self-adjacency. -/
theorem C5_teorema :
    (∀ i < N_ROTEADORES, ∀ j < N_ROTEADORES,
      existe_enlace i j = existe_enlace j i ∧ existe_enlace i i = false) ∧
    (leRota (leR (preencher_enlaces g0 insNeg) 0).rotas (1 : Int)).custo = -3 := by
  constructor
  · decide
  · decide

/-- C5, witness: the symmetry and irreflexivity of the compiled-in
adjacency at the pair 0, 1. -/
theorem C5_testemunha :
    existe_enlace 0 1 = existe_enlace 1 0 ∧ existe_enlace 0 0 = false :=
  C5_teorema.1 0 (by norm_num [N_ROTEADORES]) 1 (by norm_num [N_ROTEADORES])

/-- C6: a send to a neighbour whose mailbox already holds PKT_BUFFER
advertisements leaves that router (mailbox and table) unchanged and is
counted instead: envia_pacotes returns exactly the number of adjacent
routers with a full mailbox, no error is possible (the function is
total), and the driver's cumulative drop counter never decreases across
steps. -/
theorem C6_teorema :
    (∀ (r : List roteador) (src d : Nat), (leR r d).idx = PKT_BUFFER →
      leR (envia_pacotes r src).1 d = leR r d) ∧
    (∀ (r : List roteador) (src : Nat), (envia_pacotes r src).2 = quedas_de_envio r src) ∧
    (∀ (s : SimState) (iv : Nat → Nat), s.pkt_drop ≤ (passo_de_simulacao s iv).1.pkt_drop) :=
  ⟨envia_pacotes_cheio, envia_pacotes_quedas, passo_pkt_drop⟩

set_option maxRecDepth 100000 in
/-- C6, witness: in the concrete array cheio router 1's mailbox is full;
a send from its neighbour 0 leaves router 1 unchanged and counts one
drop. -/
theorem C6_testemunha :
    (leR cheio 1).idx = PKT_BUFFER ∧
    leR (envia_pacotes cheio 0).1 1 = leR cheio 1 ∧
    (envia_pacotes cheio 0).2 = quedas_de_envio cheio 0 :=
  ⟨by decide, C6_teorema.1 cheio 0 1 (by decide), C6_teorema.2.1 cheio 0⟩

/-- C7: within a single receive call no table entry's cost ever
increases - for every router and destination the cost after the call is
at most the cost before - and each individual relaxation either leaves
an entry entirely unchanged or strictly decreases its cost. -/
theorem C7_teorema :
    (∀ (r : List roteador) (dst i : Nat) (d : Int),
      (leRota (leR (recebe_pacote r dst).1 i).rotas d).custo ≤
        (leRota (leR r i).rotas d).custo) ∧
    (∀ (rt : roteador) (pk : pacote_t) (k : Nat) (d : Int),
      leRota ((relaxa rt pk k).1).rotas d = leRota rt.rotas d ∨
        (leRota ((relaxa rt pk k).1).rotas d).custo < (leRota rt.rotas d).custo) :=
  ⟨recebe_pacote_custo_le, relaxa_igual_ou_menor⟩

end VetorDistancia

namespace VetorDistancia

set_option maxRecDepth 100000 in
/-- C8, counterexample: the claim's invariant cost = INFINITO iff next
hop = -1 fails on a run: with entered costs 4 (A-B both ways), 7 (A-C)
and 1 elsewhere, after one step in which only B sends, router A's route
to C has cost exactly INFINITO with next hop B, not -1. -/
theorem C8_contraexemplo :
    Reachable cx8 ∧
    ¬ ((leRota (leR cx8.roteadores 0).rotas (2 : Int)).custo = INFINITO ↔
        (leRota (leR cx8.roteadores 0).rotas (2 : Int)).caminho = -1) := by
  refine ⟨?_, by decide⟩
  refine ⟨fun _ => 0, fun _ _ => ⟨0, 0, 0⟩, fun _ => 0, fun _ _ => ⟨0, []⟩,
    insC8, ivB, ?_, ?_⟩
  · intro i
    by_cases h : i = 1 <;> simp [ivB, h]
  · exact Reaches.next _ _ z0 (Reaches.refl _) (fun i => by simp [z0])

/-- C8, amended: provided every entered cost is strictly below INFINITO,
every in-range route entry of every router satisfies cost = INFINITO iff
next hop = -1 at initialization and after every step of the run, and
every direct route installed from the adjacency matrix at initialization
has next hop equal to its destination; with a cost of INFINITO or more
allowed, both clauses can fail (see the counterexample). -/
theorem C8_teorema :
    ∀ (a : Nat → Nat) (f : Nat → Nat → rota_t) (b : Nat → Nat)
      (e : Nat → Nat → pacote_t) (ins : Nat → Int) (iv : Nat → Nat) (s : SimState),
      (∀ k, ins k < INFINITO) →
      Reaches (initSim (matriz_de_lixo a f b e) ins iv) s →
      (∀ i < N_ROTEADORES, ∀ d : Int, 0 ≤ d → d < (N_ROTEADORES : Int) →
        ((leRota (leR s.roteadores i).rotas d).custo = INFINITO ↔
          (leRota (leR s.roteadores i).rotas d).caminho = -1)) ∧
      (∀ i < N_ROTEADORES, ∀ j < N_ROTEADORES, conexoes_enlaces i j ≠ -1 →
        (leRota (leR (initRouters (matriz_de_lixo a f b e) ins iv) i).rotas
          (conexoes_enlaces i j)).caminho = conexoes_enlaces i j ∧
        (leRota (leR (initRouters (matriz_de_lixo a f b e) ins iv) i).rotas
          (conexoes_enlaces i j)).destino = conexoes_enlaces i j) := by
  intro a f b e ins iv s hins hre
  have hBF := matriz_de_lixo_BoaForma a f b e
  have hins5 : ∀ k, ins k ≤ INFINITO := fun k => le_of_lt (hins k)
  have hstr := init_estrutura (matriz_de_lixo a f b e) ins iv hBF
  have htab := reaches_EstadoTabelaOk _ s hre
    (fun i hi => ⟨(hstr i hi).1, (hstr i hi).2.1, by
      have h := (hstr i hi).2.2.1
      show (leR (initRouters (matriz_de_lixo a f b e) ins iv) i).idx ≤ PKT_BUFFER
      omega, (hstr i hi).2.2.2⟩)
    (init_TabelaOk _ ins iv hBF hins5)
  constructor
  · intro i hi d h0 h6
    exact ((htab i hi).1 d h0 h6).2.2
  · intro i hi j hj hlink
    have hdir := init_direto (matriz_de_lixo a f b e) ins iv hBF hins i j hi hj hlink
    exact ⟨hdir.2.1, hdir.1⟩

/-- C8, witness: the amended theorem applied to the all-ones
configuration at the initial state, router 0, destination 1. -/
theorem C8_testemunha :
    (leRota (leR (initSim g0 insUns z0).roteadores 0).rotas (1 : Int)).custo = INFINITO ↔
      (leRota (leR (initSim g0 insUns z0).roteadores 0).rotas (1 : Int)).caminho = -1 :=
  (C8_teorema (fun _ => 0) (fun _ _ => ⟨0, 0, 0⟩) (fun _ => 0) (fun _ _ => ⟨0, []⟩)
    insUns z0 (initSim g0 insUns z0)
    (fun k => by norm_num [insUns, INFINITO])
    (Reaches.refl _)).1 0 (by norm_num [N_ROTEADORES]) 1 (by norm_num) (by
      norm_num [N_ROTEADORES])

/-- C9: in every reachable state every router's mailbox pointer idx
satisfies 0 <= idx <= PKT_BUFFER (idx is a natural number and sends
increment it only below PKT_BUFFER), and after every receive call the
receiving router's mailbox is empty. -/
theorem C9_teorema :
    (∀ s : SimState, Reachable s → ∀ i < N_ROTEADORES,
      (leR s.roteadores i).idx ≤ PKT_BUFFER) ∧
    (∀ (r : List roteador) (dst : Nat), dst < r.length →
      (leR (recebe_pacote r dst).1 dst).idx = 0) := by
  constructor
  · intro s hs i hi
    obtain ⟨a, f, b, e, ins, iv, hok, hre⟩ := hs
    have hBF := matriz_de_lixo_BoaForma a f b e
    have hstr := init_estrutura (matriz_de_lixo a f b e) ins iv hBF
    have hinv := reaches_estrutura _ s hre
      (fun i2 hi2 => ⟨(hstr i2 hi2).1, (hstr i2 hi2).2.1, by
        have h := (hstr i2 hi2).2.2.1
        show (leR (initRouters (matriz_de_lixo a f b e) ins iv) i2).idx ≤ PKT_BUFFER
        omega, (hstr i2 hi2).2.2.2⟩)
    exact (hinv i hi).2.2.1
  · exact recebe_pacote_idx_zero

set_option maxRecDepth 100000 in
/-- C9, witness: the bound at the initial state of the all-ones run, and
the emptiness of router 0's mailbox after a receive on the concrete
array cheio. -/
theorem C9_testemunha :
    (leR (initSim g0 insUns z0).roteadores 0).idx ≤ PKT_BUFFER ∧
    (leR (recebe_pacote cheio 0).1 0).idx = 0 :=
  ⟨C9_teorema.1 (initSim g0 insUns z0)
    ⟨fun _ => 0, fun _ _ => ⟨0, 0, 0⟩, fun _ => 0, fun _ _ => ⟨0, []⟩,
      insUns, z0, fun i => by simp [z0], Reaches.refl _⟩
    0 (by norm_num [N_ROTEADORES]),
  C9_teorema.2 cheio 0 (by decide)⟩

set_option maxRecDepth 100000 in
/-- C10, counterexample: the claim says no stored cost ever exceeds
INFINITO in any reachable state, but entering cost 7 for the first link
yields a reachable (initial) state in which router A's entry towards B
has cost 7. -/
theorem C10_contraexemplo :
    Reachable (initSim g0 insSete z0) ∧
    (leRota (leR (initSim g0 insSete z0).roteadores 0).rotas (1 : Int)).custo = 7 ∧
    ¬ (leRota (leR (initSim g0 insSete z0).roteadores 0).rotas (1 : Int)).custo ≤
        INFINITO := by
  refine ⟨?_, by decide, by decide⟩
  exact ⟨fun _ => 0, fun _ _ => ⟨0, 0, 0⟩, fun _ => 0, fun _ _ => ⟨0, []⟩,
    insSete, z0, fun i => by simp [z0], Reaches.refl _⟩

/-- C10, amended: provided every entered cost is at most INFINITO, every
in-range stored cost of every router is at most INFINITO in every
reachable state of the run; moreover a single relaxation never stores a
value greater than the entry's current cost, for any state whatsoever. -/
theorem C10_teorema :
    (∀ (a : Nat → Nat) (f : Nat → Nat → rota_t) (b : Nat → Nat)
      (e : Nat → Nat → pacote_t) (ins : Nat → Int) (iv : Nat → Nat) (s : SimState),
      (∀ k, ins k ≤ INFINITO) →
      Reaches (initSim (matriz_de_lixo a f b e) ins iv) s →
      ∀ i < N_ROTEADORES, ∀ d : Int, 0 ≤ d → d < (N_ROTEADORES : Int) →
        (leRota (leR s.roteadores i).rotas d).custo ≤ INFINITO) ∧
    (∀ (rt : roteador) (pk : pacote_t) (k : Nat) (d : Int),
      (leRota ((relaxa rt pk k).1).rotas d).custo ≤ (leRota rt.rotas d).custo) := by
  constructor
  · intro a f b e ins iv s hins hre i hi d h0 h6
    have hBF := matriz_de_lixo_BoaForma a f b e
    have hteto := reaches_EstadoTetoOk _ s hre
      (fun i2 hi2 d2 h02 h62 =>
        ((init_TabelaOk _ ins iv hBF hins i2 hi2).1 d2 h02 h62).2.1)
    exact hteto i hi d h0 h6
  · exact relaxa_custo_le

/-- C10, witness: the bound at the initial state of the all-ones run at
router 0, destination 1. -/
theorem C10_testemunha :
    (leRota (leR (initSim g0 insUns z0).roteadores 0).rotas (1 : Int)).custo ≤
      INFINITO :=
  C10_teorema.1 (fun _ => 0) (fun _ _ => ⟨0, 0, 0⟩) (fun _ => 0) (fun _ _ => ⟨0, []⟩)
    insUns z0 (initSim g0 insUns z0)
    (fun k => by norm_num [insUns, INFINITO])
    (Reaches.refl _) 0 (by norm_num [N_ROTEADORES]) 1 (by norm_num) (by
      norm_num [N_ROTEADORES])

end VetorDistancia
